import Mathlib

/-!
Verification development for the Azure Service Bus client of the
`servicebusexplorer` repository (`src-tauri/src/azure/`).

Strings from the Rust source are modelled as `List Char`; `Option`-valued
Rust fields become `Option` fields; fallible Rust functions returning
`Result<T, String>` become `Except (List Char) T`.  Every definition below
is a direct translation of the corresponding Rust function, except where a
doc comment says that it models an external crate (`url`, `regex`,
`urlencoding`) on the restricted input shapes this program feeds it.
-/

/-- Boolean test that `p` is an initial segment of `l`
(models Rust `str::starts_with`). -/
def beginsWith : List Char → List Char → Bool
  | [], _ => true
  | _ :: _, [] => false
  | p :: ps, c :: cs => p == c && beginsWith ps cs

/-- Remove an initial segment, returning the remainder
(models Rust `str::strip_prefix`). -/
def stripPre : List Char → List Char → Option (List Char)
  | [], l => some l
  | _ :: _, [] => none
  | p :: ps, c :: cs => if p = c then stripPre ps cs else none

/-- Remove a final segment, returning the front
(models Rust `str::strip_suffix`). -/
def stripSfx (sfx l : List Char) : Option (List Char) :=
  (stripPre sfx.reverse l.reverse).map List.reverse

/-- Boolean test that `sfx` is a final segment of `l`
(models Rust `str::ends_with`). -/
def endsWithL (sfx l : List Char) : Bool :=
  beginsWith sfx.reverse l.reverse

/-- Split a string on a separator character (models Rust `str::split`). -/
def splitOnChar (sep : Char) : List Char → List (List Char)
  | [] => [[]]
  | c :: rest =>
    if c = sep then [] :: splitOnChar sep rest
    else
      match splitOnChar sep rest with
      | h :: t => (c :: h) :: t
      | [] => [[c]]

/-- Split at the first occurrence of a separator
(models Rust `str::split_once`). -/
def splitOnce (sep : Char) : List Char → Option (List Char × List Char)
  | [] => none
  | c :: rest =>
    if c = sep then some ([], rest)
    else (splitOnce sep rest).map (fun p => (c :: p.1, p.2))

/-- Strip leading and trailing whitespace (models Rust `str::trim` on the
ASCII whitespace the connection and endpoint strings use). -/
def trimChars (l : List Char) : List Char :=
  ((l.dropWhile Char.isWhitespace).reverse.dropWhile Char.isWhitespace).reverse

/-- Drop every trailing `/` (models Rust `str::trim_end_matches('/')`). -/
def dropTrailSlash (l : List Char) : List Char :=
  (l.reverse.dropWhile (fun c => c = '/')).reverse

/-- Boolean substring test: does `p` occur contiguously inside `l`? -/
def containsSeq (p : List Char) : List Char → Bool
  | [] => beginsWith p []
  | c :: rest => beginsWith p (c :: rest) || containsSeq p rest

/-- Replace every occurrence of `%24` by `$`
(models Rust `str::replace("%24", "$")`). -/
def replDollar : List Char → List Char
  | '%' :: '2' :: '4' :: rest => '$' :: replDollar rest
  | c :: rest => c :: replDollar rest
  | [] => []

/-- ASCII lowercasing of one character. -/
def asciiLower (c : Char) : Char :=
  if 'A' ≤ c ∧ c ≤ 'Z' then Char.ofNat (c.toNat + 32) else c

/-- The decimal digit character for `n < 10`. -/
def digitChar10 (n : Nat) : Char := Char.ofNat (48 + n)

/-- Decimal digits, least significant first, with an explicit fuel bound so
that the definition reduces by computation; `fuel > n` always suffices. -/
def natToDigitsRevAux : Nat → Nat → List Char
  | 0, _ => []
  | fuel + 1, n =>
    if n < 10 then [digitChar10 n]
    else digitChar10 (n % 10) :: natToDigitsRevAux fuel (n / 10)

/-- Decimal digits of `n`, least significant first. -/
def natToDigitsRev (n : Nat) : List Char := natToDigitsRevAux (n + 1) n

/-- Decimal rendering of `n` (models Rust `format!` of an unsigned integer). -/
def natChars (n : Nat) : List Char := (natToDigitsRev n).reverse

/-- Numeric value of a string of decimal digits
(models Rust `str::parse::<u64>` on an in-range digit run). -/
def digitsVal (l : List Char) : Nat :=
  l.foldl (fun a c => a * 10 + (c.toNat - 48)) 0

/-- Rendering of a Rust `bool` by `format!`. -/
def boolChars (b : Bool) : List Char :=
  if b then "true".toList else "false".toList

/-! ### ISO-8601 duration functions (`azure/auth.rs` 180-210 and the
duplicated helpers inside `azure/servicebus.rs`) -/

/-- Value a captured digit group contributes:
`caps.get(i).and_then(|m| m.as_str().parse::<u64>().ok()).unwrap_or(0)` —
an absent group, or a digit run whose value overflows `u64`, yields `0`. -/
def capGroupVal : Option (List Char) → Nat
  | none => 0
  | some ds => if digitsVal ds < 2 ^ 64 then digitsVal ds else 0

/-- Models one optional regex component of the form `(?:(\d+)X)?` matched at
the head of `l` by the `regex` crate: the maximal digit run must be nonempty
and be followed immediately by the letter `X`; otherwise the component
matches nothing and consumes nothing. -/
def matchOptComp (letter : Char) (l : List Char) : Option (List Char) × List Char :=
  if (l.takeWhile Char.isDigit).isEmpty then (none, l)
  else
    match l.dropWhile Char.isDigit with
    | c :: rest2 =>
      if c = letter then (some (l.takeWhile Char.isDigit), rest2) else (none, l)
    | [] => (none, l)

/-- Models the unanchored leftmost search of the `regex` crate for a pattern
beginning with the literal `PT`: the remainder after the first occurrence
of the two-character sequence `PT`, if any. -/
def findPT : List Char → Option (List Char)
  | [] => none
  | c :: rest =>
    if c = 'P' ∧ rest.head? = some 'T' then some rest.tail
    else findPT rest

/-- `parse_duration_to_seconds` from `azure/auth.rs`: matches the regex
`PT(?:(\d+)H)?(?:(\d+)M)?(?:(\d+)S)?` against the input and returns
`hours*3600 + minutes*60 + seconds`, or `none` when the regex does not
match (i.e. no `PT` occurs). -/
def parse_duration_to_seconds (duration : List Char) : Option Nat :=
  match findPT duration with
  | none => none
  | some rest =>
    let hr := matchOptComp 'H' rest
    let mr := matchOptComp 'M' hr.2
    let sr := matchOptComp 'S' mr.2
    some (capGroupVal hr.1 * 3600 + capGroupVal mr.1 * 60 + capGroupVal sr.1)

/-- `seconds_to_duration` from `azure/auth.rs`: `"PT"`, then `H`/`M`
components when positive, then the `S` component when positive or when the
string so far is still exactly `"PT"`. -/
def seconds_to_duration (seconds : Nat) : List Char :=
  let hours := seconds / 3600
  let minutes := (seconds % 3600) / 60
  let secs := seconds % 60
  let d1 := ['P', 'T'] ++ (if hours > 0 then natChars hours ++ ['H'] else [])
  let d2 := d1 ++ (if minutes > 0 then natChars minutes ++ ['M'] else [])
  d2 ++ (if secs > 0 ∨ d2 = ['P', 'T'] then natChars secs ++ ['S'] else [])

/-- The nested helper `duration_to_seconds` inside
`queue_entry_to_properties` in `azure/servicebus.rs` — the same regex and
arithmetic as `parse_duration_to_seconds`. -/
def sb_duration_to_seconds (duration : List Char) : Option Nat :=
  match findPT duration with
  | none => none
  | some rest =>
    let hr := matchOptComp 'H' rest
    let mr := matchOptComp 'M' hr.2
    let sr := matchOptComp 'S' mr.2
    some (capGroupVal hr.1 * 3600 + capGroupVal mr.1 * 60 + capGroupVal sr.1)

/-- The nested helper `seconds_to_duration` inside
`queue_properties_to_xml` in `azure/servicebus.rs` (piecewise variant). -/
def sb_seconds_to_duration (seconds : Nat) : List Char :=
  if seconds < 60 then ['P', 'T'] ++ natChars seconds ++ ['S']
  else if seconds < 3600 then
    let minutes := seconds / 60
    let secs := seconds % 60
    if secs = 0 then ['P', 'T'] ++ natChars minutes ++ ['M']
    else ['P', 'T'] ++ natChars minutes ++ ['M'] ++ natChars secs ++ ['S']
  else
    let hours := seconds / 3600
    let remainder := seconds % 3600
    let minutes := remainder / 60
    let secs := remainder % 60
    if minutes = 0 ∧ secs = 0 then ['P', 'T'] ++ natChars hours ++ ['H']
    else if secs = 0 then
      ['P', 'T'] ++ natChars hours ++ ['H'] ++ natChars minutes ++ ['M']
    else
      ['P', 'T'] ++ natChars hours ++ ['H'] ++ natChars minutes ++ ['M'] ++
        natChars secs ++ ['S']

/-! ### Connection string parsing (`azure/auth.rs` 14-51) -/

/-- The result record of `parse_connection_string`. -/
structure ParsedConnectionString where
  endpoint : List Char
  shared_access_key_name : List Char
  shared_access_key : List Char
  entity_path : Option (List Char)
deriving Repr, DecidableEq

/-- Accumulator for the segment scan of `parse_connection_string`. -/
structure ConnStrScan where
  endpoint : Option (List Char) := none
  shared_access_key_name : Option (List Char) := none
  shared_access_key : Option (List Char) := none
  entity_path : Option (List Char) := none
deriving Repr, DecidableEq

/-- One segment of the `;`-separated connection string: trim it, skip it if
empty, split at the first `=`, trim and ASCII-lowercase the key, and record
the trimmed value under a recognised key (unknown keys are ignored). -/
def connStrSegment (st : ConnStrScan) (part : List Char) : ConnStrScan :=
  if (trimChars part).isEmpty then st
  else
    match splitOnce '=' (trimChars part) with
    | none => st
    | some kv =>
      if (trimChars kv.1).map asciiLower = "endpoint".toList then
        { st with endpoint := some (trimChars kv.2) }
      else if (trimChars kv.1).map asciiLower = "sharedaccesskeyname".toList then
        { st with shared_access_key_name := some (trimChars kv.2) }
      else if (trimChars kv.1).map asciiLower = "sharedaccesskey".toList then
        { st with shared_access_key := some (trimChars kv.2) }
      else if (trimChars kv.1).map asciiLower = "entitypath".toList then
        { st with entity_path := some (trimChars kv.2) }
      else st

/-- The `ok_or` chain building the final `ParsedConnectionString`: the
missing-field errors are checked in the order the Rust struct literal
evaluates them — `Endpoint`, then `SharedAccessKeyName`, then
`SharedAccessKey`. -/
def connStrFinish (st : ConnStrScan) : Except (List Char) ParsedConnectionString :=
  match st.endpoint with
  | none => .error ("Missing Endpoint in connection string. Expected format: Endpoint=sb://...;SharedAccessKeyName=...;SharedAccessKey=...").toList
  | some e =>
    match st.shared_access_key_name with
    | none => .error "Missing SharedAccessKeyName in connection string".toList
    | some n =>
      match st.shared_access_key with
      | none => .error "Missing SharedAccessKey in connection string".toList
      | some k => .ok ⟨e, n, k, st.entity_path⟩

/-- `parse_connection_string` from `azure/auth.rs`. -/
def parse_connection_string (connection_string : List Char) :
    Except (List Char) ParsedConnectionString :=
  if (trimChars connection_string).isEmpty then
    .error "Connection string cannot be empty".toList
  else
    connStrFinish
      ((splitOnChar ';' (trimChars connection_string)).foldl connStrSegment {})

/-! ### Endpoint normalization and namespace/domain extraction
(`azure/auth.rs` 86-154) -/

/-- The endpoint normalization shared by `get_namespace_from_endpoint` and
`get_endpoint_domain` (both contain this identical code): trim, rewrite
`sb://` to `https://`, keep `http://`/`https://`, otherwise prepend
`https://`; trailing `/` are stripped from the part after the scheme. -/
def normalizeEndpoint (endpoint : List Char) : List Char :=
  let t := trimChars endpoint
  if beginsWith "sb://".toList t then
    "https://".toList ++ dropTrailSlash (t.drop 5)
  else if beginsWith "http://".toList t || beginsWith "https://".toList t then
    dropTrailSlash t
  else
    "https://".toList ++ dropTrailSlash t

/-- Models `Url::parse(u).host_str()` from the `url` crate for absolute
`http(s)` URLs whose authority has no userinfo, port or percent-encoding:
the text between the scheme and the first `/`, `?`, `#`, `:` or `@`,
ASCII-lowercased; `none` when the scheme is missing or the host is empty. -/
def urlHost (u : List Char) : Option (List Char) :=
  let rest? :=
    match stripPre "https://".toList u with
    | some r => some r
    | none => stripPre "http://".toList u
  match rest? with
  | none => none
  | some r =>
    let h := r.takeWhile (fun c => !(c = '/' ∨ c = '?' ∨ c = '#' ∨ c = ':' ∨ c = '@'))
    if h.isEmpty then none else some (h.map asciiLower)

/-- The suffix dispatch of `get_namespace_from_endpoint`: the host with the
first matching cloud suffix stripped, or an error listing the four
supported suffixes. -/
def namespaceOfHost (host : List Char) : Except (List Char) (List Char) :=
  match stripSfx ".servicebus.windows.net".toList host with
  | some ns => .ok ns
  | none =>
    match stripSfx ".servicebus.usgovcloudapi.net".toList host with
    | some ns => .ok ns
    | none =>
      match stripSfx ".servicebus.chinacloudapi.cn".toList host with
      | some ns => .ok ns
      | none =>
        match stripSfx ".servicebus.cloudapi.de".toList host with
        | some ns => .ok ns
        | none => .error ("Invalid Service Bus endpoint: ".toList ++ host ++ ". Supported formats: *.servicebus.windows.net, *.servicebus.usgovcloudapi.net, *.servicebus.chinacloudapi.cn, *.servicebus.cloudapi.de".toList)

/-- `get_namespace_from_endpoint` from `azure/auth.rs`. -/
def get_namespace_from_endpoint (endpoint : List Char) :
    Except (List Char) (List Char) :=
  match urlHost (normalizeEndpoint endpoint) with
  | none => .error "Invalid endpoint URL".toList
  | some host => namespaceOfHost host

/-- The suffix dispatch of `get_endpoint_domain`: the matching cloud suffix
itself, or an error that names only the host. -/
def domainOfHost (host : List Char) : Except (List Char) (List Char) :=
  if endsWithL ".servicebus.windows.net".toList host then
    .ok ".servicebus.windows.net".toList
  else if endsWithL ".servicebus.usgovcloudapi.net".toList host then
    .ok ".servicebus.usgovcloudapi.net".toList
  else if endsWithL ".servicebus.chinacloudapi.cn".toList host then
    .ok ".servicebus.chinacloudapi.cn".toList
  else if endsWithL ".servicebus.cloudapi.de".toList host then
    .ok ".servicebus.cloudapi.de".toList
  else .error ("Invalid Service Bus endpoint: ".toList ++ host)

/-- `get_endpoint_domain` from `azure/auth.rs`. -/
def get_endpoint_domain (endpoint : List Char) : Except (List Char) (List Char) :=
  match urlHost (normalizeEndpoint endpoint) with
  | none => .error "Invalid endpoint URL".toList
  | some host => domainOfHost host

/-! ### SAS token generation (`azure/auth.rs` 53-84, `azure/servicebus.rs`
67-81).  The HMAC-SHA256 + base64 primitive comes from the `hmac`/`sha2`/
`base64` crates; it is abstracted as a function parameter `mac` mapping a
key and a message to the base64 signature text. -/

/-- Uppercase hexadecimal digit for `n < 16`. -/
def hexDigit (n : Nat) : Char :=
  if n < 10 then Char.ofNat (48 + n) else Char.ofNat (55 + n)

/-- `%XX` escape of one byte. -/
def encByte (b : Nat) : List Char := ['%', hexDigit (b / 16), hexDigit (b % 16)]

/-- UTF-8 bytes of a code point. -/
def utf8Bytes (n : Nat) : List Nat :=
  if n < 128 then [n]
  else if n < 2048 then [192 + n / 64, 128 + n % 64]
  else if n < 65536 then [224 + n / 4096, 128 + n / 64 % 64, 128 + n % 64]
  else [240 + n / 262144, 128 + n / 4096 % 64, 128 + n / 64 % 64, 128 + n % 64]

/-- The characters `urlencoding::encode` leaves unescaped. -/
def isUnreserved (c : Char) : Bool :=
  c.isAlphanum || c = '-' || c = '.' || c = '_' || c = '~'

/-- Percent-encoding of one character by `urlencoding::encode`. -/
def percentEncodeChar (c : Char) : List Char :=
  if isUnreserved c then [c] else (utf8Bytes c.toNat).flatMap encByte

/-- Models `urlencoding::encode`. -/
def percentEncode (l : List Char) : List Char := l.flatMap percentEncodeChar

/-- `generate_sas_token` from `azure/auth.rs`.  `mac key msg` abstracts
`base64(HMAC-SHA256(key, msg))`; `now` is `Utc::now().timestamp()` so the
embedded expiry is `now + expiry_seconds` in UTC epoch seconds.  (The Rust
function's only error path — an invalid HMAC key — is unreachable for
HMAC-SHA256, which accepts keys of any length, so the model is total.) -/
def generate_sas_token (mac : List Char → List Char → List Char) (now : Nat)
    (resource_uri key_name key : List Char) (expiry_seconds : Nat) : List Char :=
  let expiry := natChars (now + expiry_seconds)
  let string_to_sign := percentEncode resource_uri ++ '\n' :: expiry
  let signature := mac key string_to_sign
  "SharedAccessSignature sr=".toList ++ percentEncode resource_uri ++
    "&sig=".toList ++ percentEncode signature ++
    "&se=".toList ++ expiry ++
    "&skn=".toList ++ percentEncode key_name

/-- `get_auth_header` from `azure/servicebus.rs`: Azure-AD mode is
unimplemented; otherwise a fresh SAS token over the exact request URI with
a fixed 3600-second validity. -/
def get_auth_header (mac : List Char → List Char → List Char) (now : Nat)
    (use_azure_ad : Bool) (parsed : Option ParsedConnectionString)
    (resource_uri : List Char) : Except (List Char) (List Char) :=
  if use_azure_ad then
    .error "Azure AD authentication via REST API requires OAuth token - not yet implemented".toList
  else
    match parsed with
    | none => .error "Connection string not available".toList
    | some p =>
      .ok (generate_sas_token mac now resource_uri p.shared_access_key_name
        p.shared_access_key 3600)

/-- Field extraction from a generated token: split on `&`, expect exactly
the four fields `sr`, `sig`, `se`, `skn` with the leading
`SharedAccessSignature ` text.  Returns `(sr, sig, se, skn)`. -/
def sasParse (tok : List Char) :
    Option (List Char × List Char × List Char × List Char) :=
  match splitOnChar '&' tok with
  | [f0, f1, f2, f3] =>
    match stripPre "SharedAccessSignature sr=".toList f0,
        stripPre "sig=".toList f1, stripPre "se=".toList f2,
        stripPre "skn=".toList f3 with
    | some sr, some sg, some se, some skn => some (sr, sg, se, skn)
    | _, _, _, _ => none
  | _ => none

/-- External verification of a token: recompute the signature over the
signing string rebuilt from the embedded `sr` and `se` fields and compare
it with the embedded `sig` field. -/
def sasTokenVerify (mac : List Char → List Char → List Char)
    (key tok : List Char) : Bool :=
  match sasParse tok with
  | some (sr, sg, se, _) => sg == percentEncode (mac key (sr ++ '\n' :: se))
  | none => false

/-! ### Entity properties, update merging and XML generation
(`azure/types.rs`; `azure/servicebus.rs` `update_queue`, `update_topic`,
`queue_properties_to_xml`, `topic_properties_to_xml`) -/

/-- `QueueProperties` from `azure/types.rs`. -/
structure QueueProperties where
  name : List Char
  max_size_in_megabytes : Option Nat := none
  lock_duration_in_seconds : Option Nat := none
  max_delivery_count : Option Nat := none
  default_message_time_to_live_in_seconds : Option Nat := none
  dead_lettering_on_message_expiration : Option Bool := none
  duplicate_detection_history_time_window_in_seconds : Option Nat := none
  enable_batched_operations : Option Bool := none
  enable_partitioning : Option Bool := none
  requires_session : Option Bool := none
  requires_duplicate_detection : Option Bool := none
  message_count : Option Nat := none
  active_message_count : Option Nat := none
  dead_letter_message_count : Option Nat := none
  scheduled_message_count : Option Nat := none
  transfer_message_count : Option Nat := none
  transfer_dead_letter_message_count : Option Nat := none
  size_in_bytes : Option Nat := none
deriving Repr, DecidableEq

/-- `TopicProperties` from `azure/types.rs`. -/
structure TopicProperties where
  name : List Char
  max_size_in_megabytes : Option Nat := none
  default_message_time_to_live_in_seconds : Option Nat := none
  duplicate_detection_history_time_window_in_seconds : Option Nat := none
  enable_batched_operations : Option Bool := none
  enable_partitioning : Option Bool := none
  requires_duplicate_detection : Option Bool := none
  size_in_bytes : Option Nat := none
  subscription_count : Option Nat := none
deriving Repr, DecidableEq

/-- The merge step of `update_queue` (`azure/servicebus.rs` 330-351):
updatable fields take the caller's value when present, else the existing
one; the immutable flags and all runtime counters always come from the
existing entity. -/
def update_queue_merge (properties existing : QueueProperties) : QueueProperties :=
  { name := properties.name
    max_size_in_megabytes :=
      properties.max_size_in_megabytes.or existing.max_size_in_megabytes
    lock_duration_in_seconds :=
      properties.lock_duration_in_seconds.or existing.lock_duration_in_seconds
    max_delivery_count :=
      properties.max_delivery_count.or existing.max_delivery_count
    default_message_time_to_live_in_seconds :=
      properties.default_message_time_to_live_in_seconds.or
        existing.default_message_time_to_live_in_seconds
    dead_lettering_on_message_expiration :=
      properties.dead_lettering_on_message_expiration.or
        existing.dead_lettering_on_message_expiration
    duplicate_detection_history_time_window_in_seconds :=
      properties.duplicate_detection_history_time_window_in_seconds.or
        existing.duplicate_detection_history_time_window_in_seconds
    enable_batched_operations :=
      properties.enable_batched_operations.or existing.enable_batched_operations
    enable_partitioning := existing.enable_partitioning
    requires_session := existing.requires_session
    requires_duplicate_detection := existing.requires_duplicate_detection
    message_count := existing.message_count
    active_message_count := existing.active_message_count
    dead_letter_message_count := existing.dead_letter_message_count
    scheduled_message_count := existing.scheduled_message_count
    transfer_message_count := existing.transfer_message_count
    transfer_dead_letter_message_count :=
      existing.transfer_dead_letter_message_count
    size_in_bytes := existing.size_in_bytes }

/-- The merge step of `update_topic` (`azure/servicebus.rs` 515-525): note
that `enable_partitioning` and `requires_duplicate_detection` take the
caller's value when present (`.or`), unlike the queue merge. -/
def update_topic_merge (properties existing : TopicProperties) : TopicProperties :=
  { name := properties.name
    max_size_in_megabytes :=
      properties.max_size_in_megabytes.or existing.max_size_in_megabytes
    default_message_time_to_live_in_seconds :=
      properties.default_message_time_to_live_in_seconds.or
        existing.default_message_time_to_live_in_seconds
    duplicate_detection_history_time_window_in_seconds :=
      properties.duplicate_detection_history_time_window_in_seconds.or
        existing.duplicate_detection_history_time_window_in_seconds
    enable_batched_operations :=
      properties.enable_batched_operations.or existing.enable_batched_operations
    enable_partitioning :=
      properties.enable_partitioning.or existing.enable_partitioning
    requires_duplicate_detection :=
      properties.requires_duplicate_detection.or
        existing.requires_duplicate_detection
    size_in_bytes := existing.size_in_bytes
    subscription_count := existing.subscription_count }

/-- `queue_properties_to_xml` from `azure/servicebus.rs`: an Atom entry
whose `QueueDescription` lists only the provided updatable fields; the
immutable flags are emitted only when `is_update` is false; runtime
counters are never emitted. -/
def queue_properties_to_xml (queue_name : List Char)
    (properties : Option QueueProperties) (is_update : Bool) : List Char :=
  let head := "<?xml version=\x221.0\x22 encoding=\x22utf-8\x22?><entry xmlns=\x22http://www.w3.org/2005/Atom\x22><title>".toList ++
    queue_name ++
    "</title><content type=\x22application/xml\x22><QueueDescription xmlns=\x22http://schemas.microsoft.com/netservices/2010/10/servicebus/connect\x22>".toList
  let body :=
    match properties with
    | none => []
    | some props =>
      (match props.max_size_in_megabytes with
        | some v => "<MaxSizeInMegabytes>".toList ++ natChars v ++ "</MaxSizeInMegabytes>".toList
        | none => []) ++
      (match props.lock_duration_in_seconds with
        | some v => "<LockDuration>".toList ++ sb_seconds_to_duration v ++ "</LockDuration>".toList
        | none => []) ++
      (match props.max_delivery_count with
        | some v => "<MaxDeliveryCount>".toList ++ natChars v ++ "</MaxDeliveryCount>".toList
        | none => []) ++
      (match props.default_message_time_to_live_in_seconds with
        | some v => "<DefaultMessageTimeToLive>".toList ++ sb_seconds_to_duration v ++ "</DefaultMessageTimeToLive>".toList
        | none => []) ++
      (match props.dead_lettering_on_message_expiration with
        | some v => "<EnableDeadLetteringOnMessageExpiration>".toList ++ boolChars v ++ "</EnableDeadLetteringOnMessageExpiration>".toList
        | none => []) ++
      (match props.duplicate_detection_history_time_window_in_seconds with
        | some v => "<DuplicateDetectionHistoryTimeWindow>".toList ++ sb_seconds_to_duration v ++ "</DuplicateDetectionHistoryTimeWindow>".toList
        | none => []) ++
      (match props.enable_batched_operations with
        | some v => "<EnableBatchedOperations>".toList ++ boolChars v ++ "</EnableBatchedOperations>".toList
        | none => []) ++
      (if is_update then []
       else
        (match props.enable_partitioning with
          | some v => "<EnablePartitioning>".toList ++ boolChars v ++ "</EnablePartitioning>".toList
          | none => []) ++
        (match props.requires_session with
          | some v => "<RequiresSession>".toList ++ boolChars v ++ "</RequiresSession>".toList
          | none => []) ++
        (match props.requires_duplicate_detection with
          | some v => "<RequiresDuplicateDetection>".toList ++ boolChars v ++ "</RequiresDuplicateDetection>".toList
          | none => []))
  head ++ body ++ "</QueueDescription></content></entry>".toList

/-- `topic_properties_to_xml` from `azure/servicebus.rs`: the properties
argument is ignored entirely — only the title is emitted. -/
def topic_properties_to_xml (topic_name : List Char)
    (_properties : Option TopicProperties) : List Char :=
  "<?xml version=\x221.0\x22 encoding=\x22utf-8\x22?><entry xmlns=\x22http://www.w3.org/2005/Atom\x22><title>".toList ++
    topic_name ++ "</title></entry>".toList

/-! ### Management listing pagination (`azure/servicebus.rs`
`list_queues` 95-202, `list_topics` 408-461, `list_subscriptions` 552-622).
The network fetch is abstracted as a `server` function from the request URL
to the parsed page (entry count and extracted feed links). -/

/-- What `list_queues` extracts from one page: the number of `<entry>`
elements and the regex-extracted, `&amp;`-decoded `next` link. -/
structure QueueFeedPage where
  entries : Nat
  next : Option (List Char)
deriving Repr, DecidableEq

/-- An Atom feed `<link>` as deserialized into `FeedLink`
(`azure/servicebus.rs`): optional `rel` and `href` attributes. -/
structure FeedLink where
  rel : Option (List Char) := none
  href : Option (List Char) := none
deriving Repr, DecidableEq

/-- The `href.strip_prefix("http")` / re-prepend `"http"` normalization in
`list_queues` (a no-op by construction, kept as written). -/
def qNormalizeNext (href : List Char) : List Char :=
  match stripPre "http".toList href with
  | some rest => "http".toList ++ rest
  | none => href

/-- One iteration of the `list_queues` loop, given the current URL and the
fetched page: `none` means the loop breaks after this page, `some u` means
it continues at `u`.  Breaks on an empty page, a missing next link, or a
next link equal (after `%24`→`$` normalization on both sides) to the
current URL. -/
def list_queues_step (url : List Char) (page : QueueFeedPage) :
    Option (List Char) :=
  if page.entries = 0 then none
  else
    match page.next with
    | some href =>
      let next_url := qNormalizeNext href
      if replDollar next_url = replDollar url then none else some next_url
    | none => none

/-- Models `Url::parse(u)` then `.path()` and `.query()` from the `url`
crate, for absolute `http(s)` URLs without fragments, userinfo or ports
whose path is nonempty. -/
def urlPathQuery (u : List Char) :
    Option (List Char × Option (List Char)) :=
  let rest? :=
    match stripPre "https://".toList u with
    | some r => some r
    | none => stripPre "http://".toList u
  match rest? with
  | none => none
  | some r =>
    let beforeQ := r.takeWhile (fun c => c ≠ '?')
    let afterQ := r.dropWhile (fun c => c ≠ '?')
    let path := beforeQ.dropWhile (fun c => c ≠ '/')
    match afterQ with
    | '?' :: q => some (path, some q)
    | _ => some (path, none)

/-- The `find` over `feed.links` for `rel == "next"` in `list_topics` and
`list_subscriptions`. -/
def findNextLink (links : List FeedLink) : Option FeedLink :=
  links.find? (fun l =>
    match l.rel with
    | some r => r == "next".toList
    | none => false)

/-- One iteration of the `list_topics` loop: `none` breaks, `some u`
continues at `u`.  There is no empty-page break and no comparison of the
next link with the current URL: an absolute next link is re-rooted as
`base ++ path ++ "?" ++ query` and followed unconditionally. -/
def list_topics_step (base _url : List Char) (links : List FeedLink) :
    Option (List Char) :=
  match findNextLink links with
  | some link =>
    match link.href with
    | some href =>
      if beginsWith "http".toList href then
        match urlPathQuery href with
        | some pq => some (base ++ pq.1 ++ '?' :: pq.2.getD [])
        | none => none
      else some (base ++ href)
    | none => none
  | none => none

/-- One iteration of the `list_subscriptions` loop — the source duplicates
the `list_topics` pagination code verbatim. -/
def list_subscriptions_step (base _url : List Char) (links : List FeedLink) :
    Option (List Char) :=
  match findNextLink links with
  | some link =>
    match link.href with
    | some href =>
      if beginsWith "http".toList href then
        match urlPathQuery href with
        | some pq => some (base ++ pq.1 ++ '?' :: pq.2.getD [])
        | none => none
      else some (base ++ href)
    | none => none
  | none => none

/-- Fuel-indexed run of the `list_queues` loop: `some n` means the loop
finished after fetching `n` pages, `none` means it was still running when
the fuel ran out. -/
def list_queues_pages (server : List Char → QueueFeedPage) :
    Nat → List Char → Option Nat
  | 0, _ => none
  | fuel + 1, url =>
    match list_queues_step url (server url) with
    | none => some 1
    | some nxt => (list_queues_pages server fuel nxt).map (· + 1)

/-- Fuel-indexed run of the `list_topics` loop. -/
def list_topics_pages (base : List Char) (server : List Char → List FeedLink) :
    Nat → List Char → Option Nat
  | 0, _ => none
  | fuel + 1, url =>
    match list_topics_step base url (server url) with
    | none => some 1
    | some nxt => (list_topics_pages base server fuel nxt).map (· + 1)

/-! ### Queue purge (`azure/servicebus.rs` `purge_queue` 1423-1556).
The SDK receiver is abstracted as a function `recv` from the iteration
number and requested batch size to the outcome of that (5-second-bounded)
receive attempt. -/

/-- Outcome of one `tokio::time::timeout(5s, receiver.receive_messages(n))`
call: the elapsed timeout, a successful batch of `n` messages (deleted on
receipt in ReceiveAndDelete mode), or an SDK error. -/
inductive RecvResult where
  | timeout : RecvResult
  | batch : Nat → RecvResult
  | fail : List Char → RecvResult
deriving Repr, DecidableEq

/-- Outcome of the initial non-destructive `peek_messages(10, None)`. -/
inductive PeekOutcome where
  | peeked : Nat → PeekOutcome
  | peekFailed : PeekOutcome
deriving Repr, DecidableEq

/-- `batch_size` in `purge_queue`. -/
def purge_batch_size : Nat := 100

/-- `max_iterations` in `purge_queue`. -/
def purge_max_iterations : Nat := 100

/-- `max_consecutive_empty` in `purge_queue`. -/
def purge_max_consecutive_empty : Nat := 3

/-- The receive-timeout bound, in seconds, applied to every receive attempt
in `purge_queue` (`Duration::from_secs(5)`). -/
def purge_receive_timeout_secs : Nat := 5

/-- The receive loop of `purge_queue`: `iteration` and
`consecutive_empty_receives` and `purged_count` as in the source; each pass
increments the iteration, breaks above `max_iterations`, and otherwise asks
`recv` for a batch of `purge_batch_size` messages. -/
def purgeLoop (recv : Nat → Nat → RecvResult) (iteration consec count : Nat) :
    Except (List Char) Nat :=
  if _h : purge_max_iterations < iteration + 1 then .ok count
  else
    match recv (iteration + 1) purge_batch_size with
    | .fail e => .error ("Failed to receive messages: ".toList ++ e)
    | .timeout =>
      if purge_max_consecutive_empty ≤ consec + 1 then .ok count
      else purgeLoop recv (iteration + 1) (consec + 1) count
    | .batch n =>
      if n = 0 then
        if purge_max_consecutive_empty ≤ consec + 1 then .ok count
        else purgeLoop recv (iteration + 1) (consec + 1) count
      else purgeLoop recv (iteration + 1) 0 (count + n)
termination_by purge_max_iterations - iteration
decreasing_by
  all_goals simp only [purge_max_iterations] at *
  all_goals omega

/-- `purge_queue` after the receiver is created: the initial peek
short-circuits with 0 when it returns no messages, and its failure does not
abort the purge. -/
def purge_queue_model (peek : PeekOutcome) (recv : Nat → Nat → RecvResult) :
    Except (List Char) Nat :=
  match peek with
  | .peeked n => if n = 0 then .ok 0 else purgeLoop recv 0 0 0
  | .peekFailed => purgeLoop recv 0 0 0

/-! ### `test_connection` (`azure/servicebus.rs` 1559-1568) -/

/-- `test_connection`: the outcome of `list_queues` is turned into a
boolean; an error becomes `Ok(false)`, never an `Err`. -/
def test_connection (r : Except (List Char) (List QueueProperties)) :
    Except (List Char) Bool :=
  match r with
  | .ok _ => .ok true
  | .error _ => .ok false

/-! ### Basic lemmas about the string utilities -/

theorem stripPre_self_append (p r : List Char) : stripPre p (p ++ r) = some r := by
  induction p with
  | nil => rfl
  | cons c cs ih => simp [stripPre, ih]

theorem stripPre_eq_some (p l r : List Char) (h : stripPre p l = some r) :
    l = p ++ r := by
  induction p generalizing l with
  | nil =>
    simp only [stripPre, Option.some.injEq] at h
    simpa using h
  | cons c cs ih =>
    cases l with
    | nil => simp [stripPre] at h
    | cons d ds =>
      by_cases hc : c = d
      · subst hc
        simpa using ih ds (by simpa [stripPre] using h)
      · simp [stripPre, hc] at h

theorem stripPre_extend_none (p t x : List Char) (h : stripPre p t = none)
    (hl : p.length ≤ t.length) : stripPre p (t ++ x) = none := by
  induction p generalizing t with
  | nil => simp [stripPre] at h
  | cons c cs ih =>
    cases t with
    | nil => simp at hl
    | cons d ds =>
      by_cases hc : c = d
      · subst hc
        simp only [stripPre, if_pos rfl] at h ⊢
        exact ih ds h (by simpa using hl)
      · simp [stripPre, hc]

theorem beginsWith_iff (p l : List Char) :
    beginsWith p l = true ↔ ∃ r, l = p ++ r := by
  induction p generalizing l with
  | nil => simp [beginsWith]
  | cons c cs ih =>
    cases l with
    | nil => simp [beginsWith]
    | cons d ds =>
      simp only [beginsWith, Bool.and_eq_true, beq_iff_eq, ih]
      constructor
      · rintro ⟨rfl, r, rfl⟩
        exact ⟨r, rfl⟩
      · rintro ⟨r, hr⟩
        rw [List.cons_append, List.cons.injEq] at hr
        exact ⟨hr.1.symm, r, hr.2⟩

theorem beginsWith_self_append (p r : List Char) :
    beginsWith p (p ++ r) = true := (beginsWith_iff p _).2 ⟨r, rfl⟩

theorem beginsWith_extend_false (p t x : List Char) (h : beginsWith p t = false)
    (hl : p.length ≤ t.length) : beginsWith p (t ++ x) = false := by
  induction p generalizing t with
  | nil => simp [beginsWith] at h
  | cons c cs ih =>
    cases t with
    | nil => simp at hl
    | cons d ds =>
      simp only [beginsWith, Bool.and_eq_false_iff] at h ⊢
      rcases h with h | h
      · exact Or.inl h
      · exact Or.inr (ih ds h (by simpa using hl))

theorem stripSfx_append_self (x s : List Char) : stripSfx s (x ++ s) = some x := by
  unfold stripSfx
  rw [List.reverse_append, stripPre_self_append]
  simp

theorem stripPre_eq_none_iff (p l : List Char) :
    stripPre p l = none ↔ beginsWith p l = false := by
  induction p generalizing l with
  | nil => simp [stripPre, beginsWith]
  | cons c cs ih =>
    cases l with
    | nil => simp [stripPre, beginsWith]
    | cons d ds =>
      by_cases hc : c = d
      · subst hc; simp [stripPre, beginsWith, ih]
      · simp [stripPre, beginsWith, hc, Ne.symm hc]

theorem stripSfx_eq_none_iff (s l : List Char) :
    stripSfx s l = none ↔ endsWithL s l = false := by
  unfold stripSfx endsWithL
  rw [← stripPre_eq_none_iff]
  cases stripPre s.reverse l.reverse <;> simp

theorem dropWhile_of_all_neg (p : Char → Bool) (l : List Char)
    (h : ∀ c ∈ l, p c = false) : l.dropWhile p = l := by
  cases l with
  | nil => rfl
  | cons c cs =>
    rw [List.dropWhile_cons, h c (by simp)]
    simp

theorem dropWhile_of_all_pos (p : Char → Bool) (l : List Char)
    (h : ∀ c ∈ l, p c = true) : l.dropWhile p = [] := by
  induction l with
  | nil => rfl
  | cons c cs ih =>
    rw [List.dropWhile_cons, h c (by simp)]
    exact ih (fun d hd => h d (by simp [hd]))

theorem takeWhile_of_all_pos (p : Char → Bool) (l : List Char)
    (h : ∀ c ∈ l, p c = true) : l.takeWhile p = l := by
  induction l with
  | nil => rfl
  | cons c cs ih =>
    rw [List.takeWhile_cons, h c (by simp)]
    simp only [ite_true]
    rw [ih (fun d hd => h d (by simp [hd]))]

theorem takeWhile_append_of_all_pos (p : Char → Bool) (a b : List Char)
    (h : ∀ c ∈ a, p c = true) :
    (a ++ b).takeWhile p = a ++ b.takeWhile p := by
  induction a with
  | nil => rfl
  | cons c cs ih =>
    have hc := h c (by simp)
    simp only [List.cons_append, List.takeWhile_cons, hc, ite_true]
    rw [ih (fun d hd => h d (by simp [hd]))]

theorem dropWhile_append_of_all_pos (p : Char → Bool) (a b : List Char)
    (h : ∀ c ∈ a, p c = true) :
    (a ++ b).dropWhile p = b.dropWhile p := by
  induction a with
  | nil => rfl
  | cons c cs ih =>
    rw [List.cons_append, List.dropWhile_cons, h c (by simp)]
    exact ih (fun d hd => h d (by simp [hd]))

theorem trimChars_eq_self (l : List Char)
    (h : ∀ c ∈ l, c.isWhitespace = false) : trimChars l = l := by
  unfold trimChars
  rw [dropWhile_of_all_neg _ _ h, dropWhile_of_all_neg, List.reverse_reverse]
  intro c hc
  exact h c (by simpa using hc)

theorem trimChars_eq_nil (l : List Char)
    (h : ∀ c ∈ l, c.isWhitespace = true) : trimChars l = [] := by
  unfold trimChars
  rw [dropWhile_of_all_pos _ _ h]
  rfl

theorem dropTrailSlash_append_slashes (a s : List Char)
    (h : ∀ c ∈ s, c = '/') : dropTrailSlash (a ++ s) = dropTrailSlash a := by
  unfold dropTrailSlash
  rw [List.reverse_append, dropWhile_append_of_all_pos]
  intro c hc
  simp only [decide_eq_true_eq]
  exact h c (by simpa using hc)

theorem dropTrailSlash_concat (b : List Char) (c0 : Char) (h : c0 ≠ '/') :
    dropTrailSlash (b ++ [c0]) = b ++ [c0] := by
  unfold dropTrailSlash
  rw [List.reverse_append]
  simp only [List.reverse_cons, List.reverse_nil, List.nil_append,
    List.singleton_append, List.dropWhile_cons]
  simp [h]

/-! ### Decimal digit lemmas -/

theorem digitChar10_toNat_sub (d : Nat) (h : d < 10) :
    (digitChar10 d).toNat - 48 = d := by
  interval_cases d <;> decide

theorem digitChar10_isDigit (d : Nat) (h : d < 10) :
    (digitChar10 d).isDigit = true := by
  interval_cases d <;> decide

theorem digitsVal_append_digit (x : List Char) (d : Char) :
    digitsVal (x ++ [d]) = digitsVal x * 10 + (d.toNat - 48) := by
  simp [digitsVal, List.foldl_append]

theorem natToDigitsRevAux_spec (fuel : Nat) :
    ∀ n, n < fuel →
      digitsVal (natToDigitsRevAux fuel n).reverse = n ∧
      natToDigitsRevAux fuel n ≠ [] ∧
      ∀ c ∈ natToDigitsRevAux fuel n, c.isDigit = true := by
  induction fuel with
  | zero => intro n h; omega
  | succ f ih =>
    intro n h
    by_cases h10 : n < 10
    · refine ⟨?_, by simp [natToDigitsRevAux, h10], ?_⟩
      · simp [natToDigitsRevAux, h10, digitsVal, digitChar10_toNat_sub n h10]
      · intro c hc
        simp [natToDigitsRevAux, h10] at hc
        subst hc
        exact digitChar10_isDigit n h10
    · have hdiv : n / 10 < n := Nat.div_lt_self (by omega) (by omega)
      have hf : n / 10 < f := by omega
      obtain ⟨ihv, ihne, ihd⟩ := ih (n / 10) hf
      refine ⟨?_, by simp [natToDigitsRevAux, h10], ?_⟩
      · rw [show natToDigitsRevAux (f + 1) n =
          digitChar10 (n % 10) :: natToDigitsRevAux f (n / 10) by
            simp [natToDigitsRevAux, h10]]
        rw [List.reverse_cons, digitsVal_append_digit, ihv,
          digitChar10_toNat_sub (n % 10) (Nat.mod_lt _ (by omega))]
        omega
      · intro c hc
        rw [show natToDigitsRevAux (f + 1) n =
          digitChar10 (n % 10) :: natToDigitsRevAux f (n / 10) by
            simp [natToDigitsRevAux, h10]] at hc
        rcases List.mem_cons.1 hc with rfl | hc
        · exact digitChar10_isDigit _ (Nat.mod_lt _ (by omega))
        · exact ihd c hc

theorem digitsVal_natChars (n : Nat) : digitsVal (natChars n) = n :=
  (natToDigitsRevAux_spec (n + 1) n (by omega)).1

theorem natChars_ne_nil (n : Nat) : natChars n ≠ [] := by
  unfold natChars natToDigitsRev
  have := (natToDigitsRevAux_spec (n + 1) n (by omega)).2.1
  simpa using this

theorem natChars_isDigit (n : Nat) : ∀ c ∈ natChars n, c.isDigit = true := by
  intro c hc
  unfold natChars natToDigitsRev at hc
  exact (natToDigitsRevAux_spec (n + 1) n (by omega)).2.2 c (by simpa using hc)

theorem isDigit_ne_of_not (c c' : Char) (h : c.isDigit = true)
    (h' : c'.isDigit = false) : c ≠ c' := by
  intro e
  rw [e, h'] at h
  cases h

/-! ### Lemmas about the duration regex model -/

theorem matchOptComp_nil (letter : Char) : matchOptComp letter [] = (none, []) := rfl

theorem matchOptComp_hit (letter : Char) (ds rest : List Char)
    (hds : ∀ c ∈ ds, c.isDigit = true) (hne : ds ≠ [])
    (hl : letter.isDigit = false) :
    matchOptComp letter (ds ++ letter :: rest) = (some ds, rest) := by
  have h1 : (ds ++ letter :: rest).takeWhile Char.isDigit = ds := by
    rw [takeWhile_append_of_all_pos _ _ _ hds, List.takeWhile_cons, hl]
    simp
  have h2 : (ds ++ letter :: rest).dropWhile Char.isDigit = letter :: rest := by
    rw [dropWhile_append_of_all_pos _ _ _ hds, List.dropWhile_cons, hl]
    simp
  unfold matchOptComp
  rw [h1, h2]
  cases ds with
  | nil => exact absurd rfl hne
  | cons d0 ds' => simp

theorem matchOptComp_missLetter (letter c0 : Char) (ds rest : List Char)
    (hds : ∀ c ∈ ds, c.isDigit = true)
    (hc0 : c0.isDigit = false) (hne2 : c0 ≠ letter) :
    matchOptComp letter (ds ++ c0 :: rest) = (none, ds ++ c0 :: rest) := by
  have h1 : (ds ++ c0 :: rest).takeWhile Char.isDigit = ds := by
    rw [takeWhile_append_of_all_pos _ _ _ hds, List.takeWhile_cons, hc0]
    simp
  have h2 : (ds ++ c0 :: rest).dropWhile Char.isDigit = c0 :: rest := by
    rw [dropWhile_append_of_all_pos _ _ _ hds, List.dropWhile_cons, hc0]
    simp
  unfold matchOptComp
  rw [h1, h2]
  cases ds with
  | nil => simp
  | cons d0 ds' => simp [hne2]

theorem findPT_cons_PT (r : List Char) : findPT ('P' :: 'T' :: r) = some r := by
  simp [findPT]

theorem capGroupVal_none : capGroupVal none = 0 := rfl

theorem capGroupVal_natChars (n : Nat) (h : n < 2 ^ 64) :
    capGroupVal (some (natChars n)) = n := by
  simp only [capGroupVal, digitsVal_natChars]
  rw [if_pos h]

theorem append_ne_pt (x : List Char) (hx : x ≠ []) :
    ('P' : Char) :: 'T' :: x ≠ ['P', 'T'] := by
  intro h
  have : (('P' : Char) :: 'T' :: x).length = (['P', 'T'] : List Char).length :=
    congrArg List.length h
  simp at this
  exact hx this

theorem parse_duration_roundtrip (s : Nat) (hs : s < 2 ^ 64) :
    parse_duration_to_seconds (seconds_to_duration s) = some s := by
  have hhb : s / 3600 < 2 ^ 64 := lt_of_le_of_lt (Nat.div_le_self _ _) hs
  have hmb : s % 3600 / 60 < 2 ^ 64 := by
    have : s % 3600 / 60 < 60 := by omega
    omega
  have hsb : s % 60 < 2 ^ 64 := by
    have : s % 60 < 60 := by omega
    omega
  have harith : s / 3600 * 3600 + s % 3600 / 60 * 60 + s % 60 = s := by omega
  have hHd : ('H' : Char).isDigit = false := by decide
  have hMd : ('M' : Char).isDigit = false := by decide
  have hSd : ('S' : Char).isDigit = false := by decide
  by_cases hh : 0 < s / 3600 <;> by_cases hm : 0 < s % 3600 / 60 <;>
    by_cases hsec : 0 < s % 60
  · -- H, M, S all present
    have hfmt : seconds_to_duration s =
        'P' :: 'T' :: (natChars (s / 3600) ++ 'H' ::
          (natChars (s % 3600 / 60) ++ 'M' :: (natChars (s % 60) ++ ['S']))) := by
      simp [seconds_to_duration, hh, hm, hsec]
    have e1 := matchOptComp_hit 'H' (natChars (s / 3600))
      (natChars (s % 3600 / 60) ++ 'M' :: (natChars (s % 60) ++ ['S']))
      (natChars_isDigit _) (natChars_ne_nil _) hHd
    have e2 := matchOptComp_hit 'M' (natChars (s % 3600 / 60))
      (natChars (s % 60) ++ ['S']) (natChars_isDigit _) (natChars_ne_nil _) hMd
    have e3 := matchOptComp_hit 'S' (natChars (s % 60)) []
      (natChars_isDigit _) (natChars_ne_nil _) hSd
    rw [hfmt]
    simp only [parse_duration_to_seconds, findPT_cons_PT, e1, e2, e3,
      capGroupVal_natChars _ hhb, capGroupVal_natChars _ hmb,
      capGroupVal_natChars _ hsb]
    exact congrArg some harith
  · -- H, M present, S absent
    have hfmt : seconds_to_duration s =
        'P' :: 'T' :: (natChars (s / 3600) ++ 'H' ::
          (natChars (s % 3600 / 60) ++ ['M'])) := by
      simp [seconds_to_duration, hh, hm, hsec, natChars_ne_nil]
    have e1 := matchOptComp_hit 'H' (natChars (s / 3600))
      (natChars (s % 3600 / 60) ++ ['M'])
      (natChars_isDigit _) (natChars_ne_nil _) hHd
    have e2 := matchOptComp_hit 'M' (natChars (s % 3600 / 60)) []
      (natChars_isDigit _) (natChars_ne_nil _) hMd
    have e3 := matchOptComp_nil 'S'
    rw [hfmt]
    simp only [parse_duration_to_seconds, findPT_cons_PT, e1, e2, e3,
      capGroupVal_natChars _ hhb, capGroupVal_natChars _ hmb, capGroupVal_none]
    exact congrArg some (by omega)
  · -- H, S present, M absent
    have hfmt : seconds_to_duration s =
        'P' :: 'T' :: (natChars (s / 3600) ++ 'H' ::
          (natChars (s % 60) ++ ['S'])) := by
      simp [seconds_to_duration, hh, hm, hsec]
    have e1 := matchOptComp_hit 'H' (natChars (s / 3600))
      (natChars (s % 60) ++ ['S'])
      (natChars_isDigit _) (natChars_ne_nil _) hHd
    have e2 := matchOptComp_missLetter 'M' 'S' (natChars (s % 60)) []
      (natChars_isDigit _) hSd (by decide)
    have e3 := matchOptComp_hit 'S' (natChars (s % 60)) []
      (natChars_isDigit _) (natChars_ne_nil _) hSd
    rw [hfmt]
    simp only [parse_duration_to_seconds, findPT_cons_PT, e1, e2, e3,
      capGroupVal_natChars _ hhb, capGroupVal_natChars _ hsb, capGroupVal_none]
    exact congrArg some (by omega)
  · -- only H present
    have hfmt : seconds_to_duration s =
        'P' :: 'T' :: (natChars (s / 3600) ++ ['H']) := by
      simp [seconds_to_duration, hh, hm, hsec, natChars_ne_nil]
    have e1 := matchOptComp_hit 'H' (natChars (s / 3600)) []
      (natChars_isDigit _) (natChars_ne_nil _) hHd
    rw [hfmt]
    simp only [parse_duration_to_seconds, findPT_cons_PT, e1,
      matchOptComp_nil, capGroupVal_natChars _ hhb, capGroupVal_none]
    exact congrArg some (by omega)
  · -- M, S present, H absent
    have hfmt : seconds_to_duration s =
        'P' :: 'T' :: (natChars (s % 3600 / 60) ++ 'M' ::
          (natChars (s % 60) ++ ['S'])) := by
      simp [seconds_to_duration, hh, hm, hsec]
    have e1 := matchOptComp_missLetter 'H' 'M' (natChars (s % 3600 / 60))
      (natChars (s % 60) ++ ['S']) (natChars_isDigit _) hMd (by decide)
    have e2 := matchOptComp_hit 'M' (natChars (s % 3600 / 60))
      (natChars (s % 60) ++ ['S']) (natChars_isDigit _) (natChars_ne_nil _) hMd
    have e3 := matchOptComp_hit 'S' (natChars (s % 60)) []
      (natChars_isDigit _) (natChars_ne_nil _) hSd
    rw [hfmt]
    simp only [parse_duration_to_seconds, findPT_cons_PT, e1, e2, e3,
      capGroupVal_natChars _ hmb, capGroupVal_natChars _ hsb, capGroupVal_none]
    exact congrArg some (by omega)
  · -- only M present
    have hfmt : seconds_to_duration s =
        'P' :: 'T' :: (natChars (s % 3600 / 60) ++ ['M']) := by
      simp [seconds_to_duration, hh, hm, hsec, natChars_ne_nil]
    have e1 := matchOptComp_missLetter 'H' 'M' (natChars (s % 3600 / 60)) []
      (natChars_isDigit _) hMd (by decide)
    have e2 := matchOptComp_hit 'M' (natChars (s % 3600 / 60)) []
      (natChars_isDigit _) (natChars_ne_nil _) hMd
    rw [hfmt]
    simp only [parse_duration_to_seconds, findPT_cons_PT, e1, e2,
      matchOptComp_nil, capGroupVal_natChars _ hmb, capGroupVal_none]
    exact congrArg some (by omega)
  · -- only S present
    have hfmt : seconds_to_duration s =
        'P' :: 'T' :: (natChars (s % 60) ++ ['S']) := by
      simp [seconds_to_duration, hh, hm, hsec]
    have e1 := matchOptComp_missLetter 'H' 'S' (natChars (s % 60)) []
      (natChars_isDigit _) hSd (by decide)
    have e2 := matchOptComp_missLetter 'M' 'S' (natChars (s % 60)) []
      (natChars_isDigit _) hSd (by decide)
    have e3 := matchOptComp_hit 'S' (natChars (s % 60)) []
      (natChars_isDigit _) (natChars_ne_nil _) hSd
    rw [hfmt]
    simp only [parse_duration_to_seconds, findPT_cons_PT, e1, e2, e3,
      capGroupVal_natChars _ hsb, capGroupVal_none]
    exact congrArg some (by omega)
  · -- all zero: s = 0, formats as PT0S
    have hz : s = 0 := by omega
    subst hz
    have hfmt : seconds_to_duration 0 =
        'P' :: 'T' :: (natChars 0 ++ ['S']) := by
      simp [seconds_to_duration]
    have e1 := matchOptComp_missLetter 'H' 'S' (natChars 0) []
      (natChars_isDigit _) hSd (by decide)
    have e2 := matchOptComp_missLetter 'M' 'S' (natChars 0) []
      (natChars_isDigit _) hSd (by decide)
    have e3 := matchOptComp_hit 'S' (natChars 0) []
      (natChars_isDigit _) (natChars_ne_nil _) hSd
    rw [hfmt]
    simp only [parse_duration_to_seconds, findPT_cons_PT, e1, e2, e3,
      capGroupVal_natChars _ (by omega : (0 : Nat) < 2 ^ 64), capGroupVal_none]

theorem findPT_isSome_iff (l : List Char) :
    (findPT l).isSome = true ↔ ∃ a b, l = a ++ 'P' :: 'T' :: b := by
  induction l with
  | nil =>
    simp only [findPT, Option.isSome_none, Bool.false_eq_true, false_iff]
    rintro ⟨a, b, hab⟩
    have := congrArg List.length hab
    simp only [List.length_nil, List.length_append, List.length_cons] at this
    omega
  | cons c rest ih =>
    by_cases h : c = 'P' ∧ rest.head? = some 'T'
    · rw [findPT, if_pos h]
      simp only [Option.isSome_some, true_iff]
      obtain ⟨rfl, hh⟩ := h
      cases rest with
      | nil => simp at hh
      | cons d r2 =>
        simp only [List.head?_cons, Option.some.injEq] at hh
        subst hh
        exact ⟨[], r2, rfl⟩
    · rw [findPT, if_neg h, ih]
      constructor
      · rintro ⟨a, b, rfl⟩
        exact ⟨c :: a, b, rfl⟩
      · rintro ⟨a, b, hab⟩
        cases a with
        | nil =>
          simp only [List.nil_append, List.cons.injEq] at hab
          obtain ⟨rfl, rfl⟩ := hab
          exact absurd ⟨rfl, rfl⟩ h
        | cons a0 as =>
          simp only [List.cons_append, List.cons.injEq] at hab
          exact ⟨as, b, hab.2⟩

theorem parse_duration_isSome_iff (l : List Char) :
    (parse_duration_to_seconds l).isSome = true ↔
      ∃ a b, l = a ++ 'P' :: 'T' :: b := by
  rw [← findPT_isSome_iff]
  unfold parse_duration_to_seconds
  cases findPT l <;> simp

/-! ### Claim theorems -/

/-- Claim C3: for every non-negative integer second count `s` (a Rust
`u64`, hence `s < 2^64`), `parse_duration_to_seconds (seconds_to_duration
s) = some s`; both functions are pure Lean functions of their argument,
and the zero edge case formats as `"PT0S"`, never the bare `"PT"`. -/
theorem claim_C3_duration_roundtrip :
    (∀ s : Nat, s < 2 ^ 64 →
      parse_duration_to_seconds (seconds_to_duration s) = some s) ∧
    seconds_to_duration 0 = "PT0S".toList ∧
    seconds_to_duration 0 ≠ "PT".toList := by
  refine ⟨parse_duration_roundtrip, by decide, by decide⟩

/-- Witness for C3: the round-trip at the concrete input 3661 = 1h 1m 1s. -/
theorem claim_C3_duration_roundtrip_witness :
    3661 < 2 ^ 64 ∧
      parse_duration_to_seconds (seconds_to_duration 3661) = some 3661 :=
  ⟨by norm_num, claim_C3_duration_roundtrip.1 3661 (by norm_num)⟩

/-- Claim C10: the ISO-8601 duration parser returns `some` for exactly the
inputs containing the substring `PT` somewhere (all three `H`/`M`/`S`
components optional, pattern unanchored), so a malformed duration such as
`"PTabc"` yields `some 0` instead of a parse failure, and an input without
`PT` yields `none`; the copy of the parser inside `azure/servicebus.rs`
agrees with the `azure/auth.rs` one on every input. -/
theorem claim_C10_parser_accepts_any_PT :
    (∀ l : List Char, (parse_duration_to_seconds l).isSome = true ↔
      ∃ a b, l = a ++ 'P' :: 'T' :: b) ∧
    parse_duration_to_seconds "PTabc".toList = some 0 ∧
    parse_duration_to_seconds "1H30M".toList = none ∧
    (∀ l, sb_duration_to_seconds l = parse_duration_to_seconds l) :=
  ⟨parse_duration_isSome_iff, by decide, by decide, fun _ => rfl⟩

/-- Witness for C10: the characterization applied at the concrete input
`"xPTy"`, whose `PT` occurrence is exhibited explicitly. -/
theorem claim_C10_parser_accepts_any_PT_witness :
    (parse_duration_to_seconds "xPTy".toList).isSome = true :=
  (claim_C10_parser_accepts_any_PT.1 "xPTy".toList).2 ⟨['x'], ['y'], by decide⟩

/-! ### Lemmas for connection string parsing -/

theorem splitOnChar_noSep (sep : Char) (a : List Char)
    (ha : ∀ c ∈ a, c ≠ sep) : splitOnChar sep a = [a] := by
  induction a with
  | nil => rfl
  | cons c cs ih =>
    rw [splitOnChar, if_neg (ha c (by simp)), ih (fun d hd => ha d (by simp [hd]))]

theorem splitOnChar_append (sep : Char) (a b : List Char)
    (ha : ∀ c ∈ a, c ≠ sep) :
    splitOnChar sep (a ++ sep :: b) = a :: splitOnChar sep b := by
  induction a with
  | nil => simp [splitOnChar]
  | cons c cs ih =>
    rw [List.cons_append, splitOnChar, if_neg (ha c (by simp)),
      ih (fun d hd => ha d (by simp [hd]))]

theorem splitOnce_append (sep : Char) (a b : List Char)
    (ha : ∀ c ∈ a, c ≠ sep) : splitOnce sep (a ++ sep :: b) = some (a, b) := by
  induction a with
  | nil => simp [splitOnce]
  | cons c cs ih =>
    rw [List.cons_append, splitOnce, if_neg (ha c (by simp)),
      ih (fun d hd => ha d (by simp [hd]))]
    rfl

theorem isEmpty_append_cons (a : List Char) (c : Char) (b : List Char) :
    (a ++ c :: b).isEmpty = false := by
  cases a <;> rfl

theorem connStrSegment_endpoint (st : ConnStrScan) (v : List Char)
    (hv : ∀ c ∈ v, c.isWhitespace = false) :
    connStrSegment st ("Endpoint".toList ++ '=' :: v) =
      { st with endpoint := some v } := by
  have hkeychars : ∀ c ∈ "Endpoint".toList, c.isWhitespace = false := by decide
  have htrim : trimChars ("Endpoint".toList ++ '=' :: v) =
      "Endpoint".toList ++ '=' :: v := by
    apply trimChars_eq_self
    intro c hc
    rcases List.mem_append.1 hc with hc | hc
    · exact hkeychars c hc
    · rcases List.mem_cons.1 hc with rfl | hc
      · decide
      · exact hv c hc
  unfold connStrSegment
  rw [htrim]
  rw [if_neg (by rw [isEmpty_append_cons]; exact Bool.false_ne_true)]
  simp only [splitOnce_append '=' "Endpoint".toList v (by decide)]
  rw [if_pos (by decide : List.map asciiLower (trimChars "Endpoint".toList) = "endpoint".toList)]
  rw [trimChars_eq_self v hv]

theorem connStrSegment_keyname (st : ConnStrScan) (v : List Char)
    (hv : ∀ c ∈ v, c.isWhitespace = false) :
    connStrSegment st ("SharedAccessKeyName".toList ++ '=' :: v) =
      { st with shared_access_key_name := some v } := by
  have hkeychars : ∀ c ∈ "SharedAccessKeyName".toList, c.isWhitespace = false := by decide
  have htrim : trimChars ("SharedAccessKeyName".toList ++ '=' :: v) =
      "SharedAccessKeyName".toList ++ '=' :: v := by
    apply trimChars_eq_self
    intro c hc
    rcases List.mem_append.1 hc with hc | hc
    · exact hkeychars c hc
    · rcases List.mem_cons.1 hc with rfl | hc
      · decide
      · exact hv c hc
  unfold connStrSegment
  rw [htrim]
  rw [if_neg (by rw [isEmpty_append_cons]; exact Bool.false_ne_true)]
  simp only [splitOnce_append '=' "SharedAccessKeyName".toList v (by decide)]
  rw [if_neg (by decide : ¬(List.map asciiLower (trimChars "SharedAccessKeyName".toList) = "endpoint".toList))]
  rw [if_pos (by decide : List.map asciiLower (trimChars "SharedAccessKeyName".toList) = "sharedaccesskeyname".toList)]
  rw [trimChars_eq_self v hv]

theorem connStrSegment_key (st : ConnStrScan) (v : List Char)
    (hv : ∀ c ∈ v, c.isWhitespace = false) :
    connStrSegment st ("SharedAccessKey".toList ++ '=' :: v) =
      { st with shared_access_key := some v } := by
  have hkeychars : ∀ c ∈ "SharedAccessKey".toList, c.isWhitespace = false := by decide
  have htrim : trimChars ("SharedAccessKey".toList ++ '=' :: v) =
      "SharedAccessKey".toList ++ '=' :: v := by
    apply trimChars_eq_self
    intro c hc
    rcases List.mem_append.1 hc with hc | hc
    · exact hkeychars c hc
    · rcases List.mem_cons.1 hc with rfl | hc
      · decide
      · exact hv c hc
  unfold connStrSegment
  rw [htrim]
  rw [if_neg (by rw [isEmpty_append_cons]; exact Bool.false_ne_true)]
  simp only [splitOnce_append '=' "SharedAccessKey".toList v (by decide)]
  rw [if_neg (by decide : ¬(List.map asciiLower (trimChars "SharedAccessKey".toList) = "endpoint".toList))]
  rw [if_neg (by decide : ¬(List.map asciiLower (trimChars "SharedAccessKey".toList) = "sharedaccesskeyname".toList))]
  rw [if_pos (by decide : List.map asciiLower (trimChars "SharedAccessKey".toList) = "sharedaccesskey".toList)]
  rw [trimChars_eq_self v hv]

theorem parse_connection_string_wellformed (e n k : List Char)
    (he : ∀ c ∈ e, c.isWhitespace = false ∧ c ≠ ';')
    (hn : ∀ c ∈ n, c.isWhitespace = false ∧ c ≠ ';')
    (hk : ∀ c ∈ k, c.isWhitespace = false ∧ c ≠ ';') :
    parse_connection_string
      (("Endpoint".toList ++ '=' :: e) ++ ';' ::
        (("SharedAccessKeyName".toList ++ '=' :: n) ++ ';' ::
          ("SharedAccessKey".toList ++ '=' :: k))) =
      .ok ⟨e, n, k, none⟩ := by
  have h1 : ∀ c ∈ "Endpoint".toList, c.isWhitespace = false ∧ c ≠ ';' := by decide
  have h2 : ∀ c ∈ "SharedAccessKeyName".toList, c.isWhitespace = false ∧ c ≠ ';' := by
    decide
  have h3 : ∀ c ∈ "SharedAccessKey".toList, c.isWhitespace = false ∧ c ≠ ';' := by
    decide
  have hall : ∀ c ∈ (("Endpoint".toList ++ '=' :: e) ++ ';' ::
      (("SharedAccessKeyName".toList ++ '=' :: n) ++ ';' ::
        ("SharedAccessKey".toList ++ '=' :: k))), c.isWhitespace = false := by
    intro c hc
    rcases List.mem_append.1 hc with hc | hc
    · rcases List.mem_append.1 hc with hc | hc
      · exact (h1 c hc).1
      · rcases List.mem_cons.1 hc with rfl | hc
        · decide
        · exact (he c hc).1
    · rcases List.mem_cons.1 hc with rfl | hc
      · decide
      · rcases List.mem_append.1 hc with hc | hc
        · rcases List.mem_append.1 hc with hc | hc
          · exact (h2 c hc).1
          · rcases List.mem_cons.1 hc with rfl | hc
            · decide
            · exact (hn c hc).1
        · rcases List.mem_cons.1 hc with rfl | hc
          · decide
          · rcases List.mem_append.1 hc with hc | hc
            · exact (h3 c hc).1
            · rcases List.mem_cons.1 hc with rfl | hc
              · decide
              · exact (hk c hc).1
  have hAsemi : ∀ c ∈ "Endpoint".toList ++ '=' :: e, c ≠ ';' := by
    intro c hc
    rcases List.mem_append.1 hc with hc | hc
    · exact (h1 c hc).2
    · rcases List.mem_cons.1 hc with rfl | hc
      · decide
      · exact (he c hc).2
  have hBsemi : ∀ c ∈ "SharedAccessKeyName".toList ++ '=' :: n, c ≠ ';' := by
    intro c hc
    rcases List.mem_append.1 hc with hc | hc
    · exact (h2 c hc).2
    · rcases List.mem_cons.1 hc with rfl | hc
      · decide
      · exact (hn c hc).2
  have hCsemi : ∀ c ∈ "SharedAccessKey".toList ++ '=' :: k, c ≠ ';' := by
    intro c hc
    rcases List.mem_append.1 hc with hc | hc
    · exact (h3 c hc).2
    · rcases List.mem_cons.1 hc with rfl | hc
      · decide
      · exact (hk c hc).2
  unfold parse_connection_string
  rw [trimChars_eq_self _ hall]
  rw [if_neg (by rw [isEmpty_append_cons]; exact Bool.false_ne_true)]
  rw [splitOnChar_append ';' _ _ hAsemi, splitOnChar_append ';' _ _ hBsemi,
    splitOnChar_noSep ';' _ hCsemi]
  rw [List.foldl_cons, List.foldl_cons, List.foldl_cons, List.foldl_nil]
  rw [connStrSegment_endpoint _ e (fun c hc => (he c hc).1),
    connStrSegment_keyname _ n (fun c hc => (hn c hc).1),
    connStrSegment_key _ k (fun c hc => (hk c hc).1)]
  rfl

/-- Claim C4: `parse_connection_string` fails on empty or all-whitespace
input; with `Endpoint` present but `SharedAccessKeyName` absent (e.g.
`"Endpoint=sb://x;SharedAccessKey=abc"`) it fails naming
`SharedAccessKeyName`; missing `Endpoint` or `SharedAccessKey` are likewise
named; otherwise it succeeds, splitting on `;`, splitting each segment at
its first `=` (values may contain `=`), matching keys case-insensitively,
trimming whitespace around keys and values, and ignoring unknown keys. -/
theorem claim_C4_parse_connection_string :
    (∀ l : List Char, (∀ c ∈ l, c.isWhitespace = true) →
      parse_connection_string l =
        .error "Connection string cannot be empty".toList) ∧
    parse_connection_string "Endpoint=sb://x;SharedAccessKey=abc".toList =
      .error "Missing SharedAccessKeyName in connection string".toList ∧
    parse_connection_string "SharedAccessKeyName=n;SharedAccessKey=k".toList =
      .error "Missing Endpoint in connection string. Expected format: Endpoint=sb://...;SharedAccessKeyName=...;SharedAccessKey=...".toList ∧
    parse_connection_string "Endpoint=sb://x;SharedAccessKeyName=n".toList =
      .error "Missing SharedAccessKey in connection string".toList ∧
    parse_connection_string
        " ENDPoint = sb://x ;sharedaccesskeyname=Root;Unknown=zz;SharedAccessKey=a=b ".toList =
      .ok ⟨"sb://x".toList, "Root".toList, "a=b".toList, none⟩ ∧
    (∀ e n k : List Char,
      (∀ c ∈ e, c.isWhitespace = false ∧ c ≠ ';') →
      (∀ c ∈ n, c.isWhitespace = false ∧ c ≠ ';') →
      (∀ c ∈ k, c.isWhitespace = false ∧ c ≠ ';') →
      parse_connection_string
        (("Endpoint".toList ++ '=' :: e) ++ ';' ::
          (("SharedAccessKeyName".toList ++ '=' :: n) ++ ';' ::
            ("SharedAccessKey".toList ++ '=' :: k))) =
        .ok ⟨e, n, k, none⟩) := by
  refine ⟨?_, by rfl, by rfl, by rfl, by rfl,
    parse_connection_string_wellformed⟩
  intro l hl
  unfold parse_connection_string
  rw [trimChars_eq_nil l hl]
  rfl

/-- Witness for C4: the all-whitespace error branch at `"  "` and the
generic success branch at a concrete well-formed connection string. -/
theorem claim_C4_parse_connection_string_witness :
    parse_connection_string "  ".toList =
      .error "Connection string cannot be empty".toList ∧
    parse_connection_string
        (("Endpoint".toList ++ '=' :: "sb://x.servicebus.windows.net".toList) ++ ';' ::
          (("SharedAccessKeyName".toList ++ '=' :: "RootKey".toList) ++ ';' ::
            ("SharedAccessKey".toList ++ '=' :: "s3cret".toList))) =
      .ok ⟨"sb://x.servicebus.windows.net".toList, "RootKey".toList,
        "s3cret".toList, none⟩ :=
  ⟨claim_C4_parse_connection_string.1 "  ".toList (by decide),
   claim_C4_parse_connection_string.2.2.2.2.2 _ _ _ (by decide) (by decide)
     (by decide)⟩

/-! ### Lemmas for endpoint normalization and host extraction -/

theorem map_id_on (f : Char → Char) (l : List Char) (h : ∀ c ∈ l, f c = c) :
    l.map f = l := by
  induction l with
  | nil => rfl
  | cons c cs ih =>
    rw [List.map_cons, h c (by simp), ih (fun d hd => h d (by simp [hd]))]

theorem stripPre_extend_mismatch (p t x : List Char)
    (h : stripPre (p.take t.length) t = none) : stripPre p (t ++ x) = none := by
  induction t generalizing p with
  | nil => simp [stripPre] at h
  | cons d ds ih =>
    cases p with
    | nil => simp [stripPre] at h
    | cons c cs =>
      simp only [List.length_cons, List.take_succ_cons, stripPre,
        List.cons_append] at h ⊢
      by_cases hc : c = d
      · rw [if_pos hc] at h ⊢
        exact ih cs h
      · rw [if_neg hc]

theorem dropTrailSlash_eq_self (l : List Char) (h : ∀ c ∈ l, c ≠ '/') :
    dropTrailSlash l = l := by
  unfold dropTrailSlash
  rw [dropWhile_of_all_neg, List.reverse_reverse]
  intro c hc
  simp only [decide_eq_false_iff_not]
  exact h c (List.mem_reverse.1 hc)

theorem dropTrailSlash_append_suffix (a init : List Char) (c0 : Char)
    (slashes : List Char) (hc0 : c0 ≠ '/') (hsl : ∀ c ∈ slashes, c = '/') :
    dropTrailSlash (a ++ (init ++ c0 :: slashes)) = a ++ (init ++ [c0]) := by
  have hsh : a ++ (init ++ c0 :: slashes) = ((a ++ init) ++ [c0]) ++ slashes := by
    simp
  rw [hsh, dropTrailSlash_append_slashes _ _ hsl, dropTrailSlash_concat _ _ hc0]
  simp

theorem beginsWith_false_of_missing (p l : List Char) (c0 : Char) (hp : c0 ∈ p)
    (hl : c0 ∉ l) : beginsWith p l = false := by
  cases hb : beginsWith p l with
  | false => rfl
  | true =>
    obtain ⟨r, rfl⟩ := (beginsWith_iff p l).1 hb
    exact absurd (List.mem_append.2 (Or.inl hp)) hl

theorem normalizeEndpoint_sb (x : List Char)
    (hx : ∀ c ∈ x, c.isWhitespace = false) :
    normalizeEndpoint ("sb://".toList ++ x) =
      "https://".toList ++ dropTrailSlash x := by
  have hconc : ∀ c ∈ "sb://".toList, c.isWhitespace = false := by decide
  have htrim : trimChars ("sb://".toList ++ x) = "sb://".toList ++ x := by
    apply trimChars_eq_self
    intro c hc
    rcases List.mem_append.1 hc with hc | hc
    · exact hconc c hc
    · exact hx c hc
  unfold normalizeEndpoint
  rw [htrim, if_pos (beginsWith_self_append "sb://".toList x)]
  rw [show (5 : Nat) = ("sb://".toList).length from by decide, List.drop_left]

theorem normalizeEndpoint_http (x : List Char)
    (hx : ∀ c ∈ x, c.isWhitespace = false) :
    normalizeEndpoint ("http://".toList ++ x) =
      dropTrailSlash ("http://".toList ++ x) := by
  have hconc : ∀ c ∈ "http://".toList, c.isWhitespace = false := by decide
  have htrim : trimChars ("http://".toList ++ x) = "http://".toList ++ x := by
    apply trimChars_eq_self
    intro c hc
    rcases List.mem_append.1 hc with hc | hc
    · exact hconc c hc
    · exact hx c hc
  have hsb : beginsWith "sb://".toList ("http://".toList ++ x) = false :=
    beginsWith_extend_false _ _ _ (by decide) (by decide)
  unfold normalizeEndpoint
  rw [htrim, if_neg (by rw [hsb]; exact Bool.false_ne_true)]
  rw [if_pos (by rw [beginsWith_self_append]; rfl)]

theorem normalizeEndpoint_https (x : List Char)
    (hx : ∀ c ∈ x, c.isWhitespace = false) :
    normalizeEndpoint ("https://".toList ++ x) =
      dropTrailSlash ("https://".toList ++ x) := by
  have hconc : ∀ c ∈ "https://".toList, c.isWhitespace = false := by decide
  have htrim : trimChars ("https://".toList ++ x) = "https://".toList ++ x := by
    apply trimChars_eq_self
    intro c hc
    rcases List.mem_append.1 hc with hc | hc
    · exact hconc c hc
    · exact hx c hc
  have hsb : beginsWith "sb://".toList ("https://".toList ++ x) = false :=
    beginsWith_extend_false _ _ _ (by decide) (by decide)
  have hhttp : beginsWith "http://".toList ("https://".toList ++ x) = false :=
    (stripPre_eq_none_iff _ _).1 (stripPre_extend_mismatch _ _ _ (by decide))
  unfold normalizeEndpoint
  rw [htrim, if_neg (by rw [hsb]; exact Bool.false_ne_true)]
  rw [if_pos (by rw [hhttp, beginsWith_self_append]; rfl)]

theorem normalizeEndpoint_bare (x : List Char)
    (hx : ∀ c ∈ x, c.isWhitespace = false) (hcolon : ':' ∉ x) :
    normalizeEndpoint x = "https://".toList ++ dropTrailSlash x := by
  have htrim : trimChars x = x := trimChars_eq_self x hx
  have hsb : beginsWith "sb://".toList x = false :=
    beginsWith_false_of_missing _ _ ':' (by decide) hcolon
  have hhttp : beginsWith "http://".toList x = false :=
    beginsWith_false_of_missing _ _ ':' (by decide) hcolon
  have hhttps : beginsWith "https://".toList x = false :=
    beginsWith_false_of_missing _ _ ':' (by decide) hcolon
  unfold normalizeEndpoint
  rw [htrim, if_neg (by rw [hsb]; exact Bool.false_ne_true)]
  rw [if_neg (by rw [hhttp, hhttps]; exact Bool.false_ne_true)]

theorem urlHost_scheme (sch : List Char)
    (hsch : sch = "https://".toList ∨ sch = "http://".toList) (h : List Char)
    (hne : h ≠ [])
    (hstop : ∀ c ∈ h, (!(c = '/' ∨ c = '?' ∨ c = '#' ∨ c = ':' ∨ c = '@')) = true)
    (hlow : ∀ c ∈ h, asciiLower c = c) :
    urlHost (sch ++ h) = some h := by
  have htake : h.takeWhile
      (fun c => !(c = '/' ∨ c = '?' ∨ c = '#' ∨ c = ':' ∨ c = '@')) = h :=
    takeWhile_of_all_pos _ _ hstop
  have hie : h.isEmpty = false := by
    cases h with
    | nil => exact absurd rfl hne
    | cons a as => rfl
  have hmap : h.map asciiLower = h := map_id_on _ _ hlow
  rcases hsch with rfl | rfl
  · unfold urlHost
    rw [stripPre_self_append]
    simp only [htake, hie, Bool.false_eq_true, if_false, hmap]
  · unfold urlHost
    rw [stripPre_extend_mismatch "https://".toList "http://".toList h (by decide),
      stripPre_self_append]
    simp only [htake, hie, Bool.false_eq_true, if_false, hmap]

theorem stripSfx_mismatch (s u x : List Char)
    (h : stripPre (s.reverse.take u.reverse.length) u.reverse = none) :
    stripSfx s (x ++ u) = none := by
  unfold stripSfx
  rw [List.reverse_append, stripPre_extend_mismatch _ _ _ h]
  rfl

theorem endsWithL_append_self (x s : List Char) : endsWithL s (x ++ s) = true := by
  unfold endsWithL
  rw [List.reverse_append]
  exact beginsWith_self_append _ _

theorem endsWithL_mismatch (s u x : List Char)
    (h : stripPre (s.reverse.take u.reverse.length) u.reverse = none) :
    endsWithL s (x ++ u) = false := by
  unfold endsWithL
  rw [List.reverse_append]
  exact (stripPre_eq_none_iff _ _).1 (stripPre_extend_mismatch _ _ _ h)

theorem namespaceOfHost_suffix (ns sfx : List Char)
    (hsfx : sfx = ".servicebus.windows.net".toList ∨
      sfx = ".servicebus.usgovcloudapi.net".toList ∨
      sfx = ".servicebus.chinacloudapi.cn".toList ∨
      sfx = ".servicebus.cloudapi.de".toList) :
    namespaceOfHost (ns ++ sfx) = .ok ns := by
  rcases hsfx with rfl | rfl | rfl | rfl
  · unfold namespaceOfHost
    rw [stripSfx_append_self]
  · unfold namespaceOfHost
    rw [stripSfx_mismatch _ _ _ (by decide), stripSfx_append_self]
  · unfold namespaceOfHost
    rw [stripSfx_mismatch _ _ _ (by decide), stripSfx_mismatch _ _ _ (by decide),
      stripSfx_append_self]
  · unfold namespaceOfHost
    rw [stripSfx_mismatch _ _ _ (by decide), stripSfx_mismatch _ _ _ (by decide),
      stripSfx_mismatch _ _ _ (by decide), stripSfx_append_self]

theorem domainOfHost_suffix (ns sfx : List Char)
    (hsfx : sfx = ".servicebus.windows.net".toList ∨
      sfx = ".servicebus.usgovcloudapi.net".toList ∨
      sfx = ".servicebus.chinacloudapi.cn".toList ∨
      sfx = ".servicebus.cloudapi.de".toList) :
    domainOfHost (ns ++ sfx) = .ok sfx := by
  rcases hsfx with rfl | rfl | rfl | rfl
  · unfold domainOfHost
    rw [if_pos (by rw [endsWithL_append_self])]
  · unfold domainOfHost
    rw [if_neg (by rw [endsWithL_mismatch _ _ _ (by decide)]; exact Bool.false_ne_true),
      if_pos (by rw [endsWithL_append_self])]
  · unfold domainOfHost
    rw [if_neg (by rw [endsWithL_mismatch _ _ _ (by decide)]; exact Bool.false_ne_true),
      if_neg (by rw [endsWithL_mismatch _ _ _ (by decide)]; exact Bool.false_ne_true),
      if_pos (by rw [endsWithL_append_self])]
  · unfold domainOfHost
    rw [if_neg (by rw [endsWithL_mismatch _ _ _ (by decide)]; exact Bool.false_ne_true),
      if_neg (by rw [endsWithL_mismatch _ _ _ (by decide)]; exact Bool.false_ne_true),
      if_neg (by rw [endsWithL_mismatch _ _ _ (by decide)]; exact Bool.false_ne_true),
      if_pos (by rw [endsWithL_append_self])]

theorem suffix_facts (sfx : List Char)
    (hsfx : sfx = ".servicebus.windows.net".toList ∨
      sfx = ".servicebus.usgovcloudapi.net".toList ∨
      sfx = ".servicebus.chinacloudapi.cn".toList ∨
      sfx = ".servicebus.cloudapi.de".toList) :
    (∀ c ∈ sfx, c.isWhitespace = false ∧ c ≠ '/' ∧ c ≠ ':' ∧
      (!(c = '/' ∨ c = '?' ∨ c = '#' ∨ c = ':' ∨ c = '@')) = true ∧
      asciiLower c = c) ∧
    ∃ init c0, sfx = init ++ [c0] ∧ c0 ≠ '/' := by
  rcases hsfx with rfl | rfl | rfl | rfl
  · exact ⟨by decide, ".servicebus.windows.ne".toList, 't', by decide, by decide⟩
  · exact ⟨by decide, ".servicebus.usgovcloudapi.ne".toList, 't', by decide, by decide⟩
  · exact ⟨by decide, ".servicebus.chinacloudapi.c".toList, 'n', by decide, by decide⟩
  · exact ⟨by decide, ".servicebus.cloudapi.d".toList, 'e', by decide, by decide⟩

theorem dropTrailSlash_ns_sfx (a slashes : List Char)
    (hsl : ∀ c ∈ slashes, c = '/') (sfx init : List Char) (c0 : Char)
    (hs : sfx = init ++ [c0]) (hc0 : c0 ≠ '/') :
    dropTrailSlash (a ++ (sfx ++ slashes)) = a ++ sfx := by
  subst hs
  have hsh : (init ++ [c0]) ++ slashes = init ++ c0 :: slashes := by simp
  rw [hsh, dropTrailSlash_append_suffix a init c0 slashes hc0 hsl]

theorem endpoint_resolved_of_host (input host : List Char)
    (hnorm : urlHost (normalizeEndpoint input) = some host) :
    get_namespace_from_endpoint input = namespaceOfHost host ∧
    get_endpoint_domain input = domainOfHost host := by
  constructor
  · unfold get_namespace_from_endpoint
    rw [hnorm]
  · unfold get_endpoint_domain
    rw [hnorm]

/-- Claim C5: for every endpoint whose host is `namespace ++ suffix` with
`suffix` one of the four supported cloud suffixes and `namespace` a
well-formed host label (nonempty; no whitespace, `/`, `:`, `?`, `#`, `@`;
no ASCII uppercase, so URL host lowercasing is the identity),
`get_namespace_from_endpoint` returns exactly the namespace,
`get_endpoint_domain` returns exactly the suffix, and the extracted host is
exactly `namespace ++ suffix` — whether the endpoint uses `sb://`,
`http://`, `https://` or no scheme, and regardless of trailing slashes. -/
theorem claim_C5_endpoint_namespace_roundtrip :
    ∀ scheme ns sfx slashes : List Char,
      (scheme = "sb://".toList ∨ scheme = "http://".toList ∨
        scheme = "https://".toList ∨ scheme = []) →
      ns ≠ [] →
      (∀ c ∈ ns, c.isWhitespace = false ∧ c ≠ '/' ∧ c ≠ ':' ∧ c ≠ '?' ∧
        c ≠ '#' ∧ c ≠ '@' ∧ asciiLower c = c) →
      (sfx = ".servicebus.windows.net".toList ∨
        sfx = ".servicebus.usgovcloudapi.net".toList ∨
        sfx = ".servicebus.chinacloudapi.cn".toList ∨
        sfx = ".servicebus.cloudapi.de".toList) →
      (∀ c ∈ slashes, c = '/') →
      get_namespace_from_endpoint (scheme ++ (ns ++ (sfx ++ slashes))) = .ok ns ∧
      get_endpoint_domain (scheme ++ (ns ++ (sfx ++ slashes))) = .ok sfx ∧
      urlHost (normalizeEndpoint (scheme ++ (ns ++ (sfx ++ slashes)))) =
        some (ns ++ sfx) := by
  intro scheme ns sfx slashes hscheme hnsne hns hsfx hsl
  obtain ⟨hsfacts, init, c0, hshape, hc0⟩ := suffix_facts sfx hsfx
  have hxws : ∀ c ∈ ns ++ (sfx ++ slashes), c.isWhitespace = false := by
    intro c hc
    rcases List.mem_append.1 hc with hc | hc
    · exact (hns c hc).1
    · rcases List.mem_append.1 hc with hc | hc
      · exact (hsfacts c hc).1
      · rw [hsl c hc]; decide
  have hxcolon : ':' ∉ ns ++ (sfx ++ slashes) := by
    intro hc
    rcases List.mem_append.1 hc with hc | hc
    · exact (hns ':' hc).2.2.1 rfl
    · rcases List.mem_append.1 hc with hc | hc
      · exact (hsfacts ':' hc).2.2.1 rfl
      · exact (by decide : (':' : Char) ≠ '/') (hsl ':' hc)
  have hdrop : dropTrailSlash (ns ++ (sfx ++ slashes)) = ns ++ sfx :=
    dropTrailSlash_ns_sfx ns slashes hsl sfx init c0 hshape hc0
  have hhostne : ns ++ sfx ≠ [] := by
    cases ns with
    | nil => exact absurd rfl hnsne
    | cons a as => simp
  have hhoststop : ∀ c ∈ ns ++ sfx,
      (!(c = '/' ∨ c = '?' ∨ c = '#' ∨ c = ':' ∨ c = '@')) = true := by
    intro c hc
    rcases List.mem_append.1 hc with hc | hc
    · have h := hns c hc
      simp [h.2.1, h.2.2.1, h.2.2.2.1, h.2.2.2.2.1, h.2.2.2.2.2.1]
    · exact (hsfacts c hc).2.2.2.1
  have hhostlow : ∀ c ∈ ns ++ sfx, asciiLower c = c := by
    intro c hc
    rcases List.mem_append.1 hc with hc | hc
    · exact (hns c hc).2.2.2.2.2.2
    · exact (hsfacts c hc).2.2.2.2
  have hhost : urlHost (normalizeEndpoint (scheme ++ (ns ++ (sfx ++ slashes)))) =
      some (ns ++ sfx) := by
    rcases hscheme with rfl | rfl | rfl | rfl
    · rw [normalizeEndpoint_sb _ hxws, hdrop]
      exact urlHost_scheme _ (Or.inl rfl) _ hhostne hhoststop hhostlow
    · rw [normalizeEndpoint_http _ hxws]
      have hsh : "http://".toList ++ (ns ++ (sfx ++ slashes)) =
          ("http://".toList ++ ns) ++ (sfx ++ slashes) := by simp
      have hd2 : dropTrailSlash ("http://".toList ++ (ns ++ (sfx ++ slashes))) =
          "http://".toList ++ (ns ++ sfx) := by
        rw [hsh,
          dropTrailSlash_ns_sfx ("http://".toList ++ ns) slashes hsl sfx init c0
            hshape hc0]
        simp
      rw [hd2]
      exact urlHost_scheme _ (Or.inr rfl) _ hhostne hhoststop hhostlow
    · rw [normalizeEndpoint_https _ hxws]
      have hsh : "https://".toList ++ (ns ++ (sfx ++ slashes)) =
          ("https://".toList ++ ns) ++ (sfx ++ slashes) := by simp
      have hd2 : dropTrailSlash ("https://".toList ++ (ns ++ (sfx ++ slashes))) =
          "https://".toList ++ (ns ++ sfx) := by
        rw [hsh,
          dropTrailSlash_ns_sfx ("https://".toList ++ ns) slashes hsl sfx init c0
            hshape hc0]
        simp
      rw [hd2]
      exact urlHost_scheme _ (Or.inl rfl) _ hhostne hhoststop hhostlow
    · rw [List.nil_append, normalizeEndpoint_bare _ hxws hxcolon, hdrop]
      exact urlHost_scheme _ (Or.inl rfl) _ hhostne hhoststop hhostlow
  obtain ⟨hn, hd⟩ := endpoint_resolved_of_host _ _ hhost
  exact ⟨hn.trans (namespaceOfHost_suffix ns sfx hsfx),
    hd.trans (domainOfHost_suffix ns sfx hsfx), hhost⟩

/-- Witness for C5: the theorem applied to the concrete endpoint
`sb://mybus.servicebus.windows.net/`. -/
theorem claim_C5_endpoint_namespace_roundtrip_witness :
    get_namespace_from_endpoint "sb://mybus.servicebus.windows.net/".toList =
      .ok "mybus".toList ∧
    get_endpoint_domain "sb://mybus.servicebus.windows.net/".toList =
      .ok ".servicebus.windows.net".toList := by
  have h := claim_C5_endpoint_namespace_roundtrip "sb://".toList "mybus".toList
    ".servicebus.windows.net".toList "/".toList (Or.inl rfl) (by decide)
    (by decide) (Or.inl rfl) (by decide)
  rw [show "sb://".toList ++ ("mybus".toList ++
      (".servicebus.windows.net".toList ++ "/".toList)) =
      "sb://mybus.servicebus.windows.net/".toList from by decide] at h
  exact ⟨h.1, h.2.1⟩

theorem containsSeq_iff (p l : List Char) :
    containsSeq p l = true ↔ ∃ a b, l = a ++ p ++ b := by
  induction l with
  | nil =>
    unfold containsSeq
    rw [beginsWith_iff]
    constructor
    · rintro ⟨r, hr⟩
      exact ⟨[], r, by simpa using hr⟩
    · rintro ⟨a, b, hab⟩
      refine ⟨b, ?_⟩
      have ha : a = [] := by
        cases a with
        | nil => rfl
        | cons x xs => simp at hab
      subst ha
      simpa using hab
  | cons c rest ih =>
    unfold containsSeq
    rw [Bool.or_eq_true, beginsWith_iff, ih]
    constructor
    · rintro (⟨r, hr⟩ | ⟨a, b, hab⟩)
      · exact ⟨[], r, by simpa using hr⟩
      · exact ⟨c :: a, b, by simp [hab]⟩
    · rintro ⟨a, b, hab⟩
      cases a with
      | nil =>
        exact Or.inl ⟨b, by simpa using hab⟩
      | cons a0 as =>
        rw [List.cons_append, List.cons_append, List.cons.injEq] at hab
        exact Or.inr ⟨as, b, by simp [hab.2]⟩


theorem dropTrailSlash_append_of_ne (a h : List Char) (hne : h ≠ [])
    (hsl : ∀ c ∈ h, c ≠ '/') : dropTrailSlash (a ++ h) = a ++ h := by
  rcases List.eq_nil_or_concat h with rfl | ⟨init, c0, rfl⟩
  · exact absurd rfl hne
  · rw [List.concat_eq_append,
      show a ++ (init ++ [c0]) = (a ++ init) ++ [c0] by simp,
      dropTrailSlash_concat _ _ (hsl c0 (by simp))]

theorem namespaceOfHost_nomatch (host : List Char)
    (h1 : endsWithL ".servicebus.windows.net".toList host = false)
    (h2 : endsWithL ".servicebus.usgovcloudapi.net".toList host = false)
    (h3 : endsWithL ".servicebus.chinacloudapi.cn".toList host = false)
    (h4 : endsWithL ".servicebus.cloudapi.de".toList host = false) :
    namespaceOfHost host =
      .error ("Invalid Service Bus endpoint: ".toList ++ host ++
        ". Supported formats: *.servicebus.windows.net, *.servicebus.usgovcloudapi.net, *.servicebus.chinacloudapi.cn, *.servicebus.cloudapi.de".toList) := by
  unfold namespaceOfHost
  rw [(stripSfx_eq_none_iff _ _).2 h1, (stripSfx_eq_none_iff _ _).2 h2,
    (stripSfx_eq_none_iff _ _).2 h3, (stripSfx_eq_none_iff _ _).2 h4]

theorem domainOfHost_nomatch (host : List Char)
    (h1 : endsWithL ".servicebus.windows.net".toList host = false)
    (h2 : endsWithL ".servicebus.usgovcloudapi.net".toList host = false)
    (h3 : endsWithL ".servicebus.chinacloudapi.cn".toList host = false)
    (h4 : endsWithL ".servicebus.cloudapi.de".toList host = false) :
    domainOfHost host = .error ("Invalid Service Bus endpoint: ".toList ++ host) := by
  unfold domainOfHost
  rw [if_neg (by rw [h1]; exact Bool.false_ne_true),
    if_neg (by rw [h2]; exact Bool.false_ne_true),
    if_neg (by rw [h3]; exact Bool.false_ne_true),
    if_neg (by rw [h4]; exact Bool.false_ne_true)]

/-- Claim C6 (amended): for every well-formed host that ends in none of the
four supported cloud suffixes, both `get_namespace_from_endpoint` and
`get_endpoint_domain` fail; the namespace-derivation error lists all four
supported suffixes, but the domain-derivation error names only the host and
does not list the suffixes (see the counterexample for the original
claim). -/
theorem claim_C6_unsupported_host_errors :
    ∀ host : List Char, host ≠ [] →
      (∀ c ∈ host, c.isWhitespace = false ∧ c ≠ '/' ∧ c ≠ ':' ∧ c ≠ '?' ∧
        c ≠ '#' ∧ c ≠ '@' ∧ asciiLower c = c) →
      endsWithL ".servicebus.windows.net".toList host = false →
      endsWithL ".servicebus.usgovcloudapi.net".toList host = false →
      endsWithL ".servicebus.chinacloudapi.cn".toList host = false →
      endsWithL ".servicebus.cloudapi.de".toList host = false →
      get_namespace_from_endpoint ("https://".toList ++ host) =
        .error ("Invalid Service Bus endpoint: ".toList ++ host ++
          ". Supported formats: *.servicebus.windows.net, *.servicebus.usgovcloudapi.net, *.servicebus.chinacloudapi.cn, *.servicebus.cloudapi.de".toList) ∧
      (∀ sfx, (sfx = ".servicebus.windows.net".toList ∨
          sfx = ".servicebus.usgovcloudapi.net".toList ∨
          sfx = ".servicebus.chinacloudapi.cn".toList ∨
          sfx = ".servicebus.cloudapi.de".toList) →
        containsSeq sfx ("Invalid Service Bus endpoint: ".toList ++ host ++
          ". Supported formats: *.servicebus.windows.net, *.servicebus.usgovcloudapi.net, *.servicebus.chinacloudapi.cn, *.servicebus.cloudapi.de".toList) = true) ∧
      get_endpoint_domain ("https://".toList ++ host) =
        .error ("Invalid Service Bus endpoint: ".toList ++ host) := by
  intro host hne hchars h1 h2 h3 h4
  have hws : ∀ c ∈ host, c.isWhitespace = false := fun c hc => (hchars c hc).1
  have hxws : ∀ c ∈ "https://".toList ++ host, c.isWhitespace = false := by
    intro c hc
    rcases List.mem_append.1 hc with hc | hc
    · have hcon : ∀ c ∈ "https://".toList, c.isWhitespace = false := by decide
      exact hcon c hc
    · exact hws c hc
  have hdrop : dropTrailSlash ("https://".toList ++ host) =
      "https://".toList ++ host :=
    dropTrailSlash_append_of_ne _ _ hne (fun c hc => (hchars c hc).2.1)
  have hstop : ∀ c ∈ host,
      (!(c = '/' ∨ c = '?' ∨ c = '#' ∨ c = ':' ∨ c = '@')) = true := by
    intro c hc
    have h := hchars c hc
    simp [h.2.1, h.2.2.1, h.2.2.2.1, h.2.2.2.2.1, h.2.2.2.2.2.1]
  have hhost : urlHost (normalizeEndpoint ("https://".toList ++ host)) =
      some host := by
    have hn := normalizeEndpoint_https host hws
    rw [hn, hdrop]
    exact urlHost_scheme _ (Or.inl rfl) _ hne hstop
      (fun c hc => (hchars c hc).2.2.2.2.2.2)
  obtain ⟨hnsp, hdom⟩ := endpoint_resolved_of_host _ _ hhost
  refine ⟨hnsp.trans (namespaceOfHost_nomatch host h1 h2 h3 h4), ?_,
    hdom.trans (domainOfHost_nomatch host h1 h2 h3 h4)⟩
  intro sfx hsfx
  rw [containsSeq_iff]
  rcases hsfx with rfl | rfl | rfl | rfl
  · refine ⟨"Invalid Service Bus endpoint: ".toList ++ host ++
      ". Supported formats: *".toList,
      ", *.servicebus.usgovcloudapi.net, *.servicebus.chinacloudapi.cn, *.servicebus.cloudapi.de".toList, ?_⟩
    rw [show (". Supported formats: *.servicebus.windows.net, *.servicebus.usgovcloudapi.net, *.servicebus.chinacloudapi.cn, *.servicebus.cloudapi.de").toList =
      ". Supported formats: *".toList ++ (".servicebus.windows.net".toList ++
        ", *.servicebus.usgovcloudapi.net, *.servicebus.chinacloudapi.cn, *.servicebus.cloudapi.de".toList) from by decide]
    simp
  · refine ⟨"Invalid Service Bus endpoint: ".toList ++ host ++
      ". Supported formats: *.servicebus.windows.net, *".toList,
      ", *.servicebus.chinacloudapi.cn, *.servicebus.cloudapi.de".toList, ?_⟩
    rw [show (". Supported formats: *.servicebus.windows.net, *.servicebus.usgovcloudapi.net, *.servicebus.chinacloudapi.cn, *.servicebus.cloudapi.de").toList =
      ". Supported formats: *.servicebus.windows.net, *".toList ++
        (".servicebus.usgovcloudapi.net".toList ++
          ", *.servicebus.chinacloudapi.cn, *.servicebus.cloudapi.de".toList) from by decide]
    simp
  · refine ⟨"Invalid Service Bus endpoint: ".toList ++ host ++
      ". Supported formats: *.servicebus.windows.net, *.servicebus.usgovcloudapi.net, *".toList,
      ", *.servicebus.cloudapi.de".toList, ?_⟩
    rw [show (". Supported formats: *.servicebus.windows.net, *.servicebus.usgovcloudapi.net, *.servicebus.chinacloudapi.cn, *.servicebus.cloudapi.de").toList =
      ". Supported formats: *.servicebus.windows.net, *.servicebus.usgovcloudapi.net, *".toList ++
        (".servicebus.chinacloudapi.cn".toList ++ ", *.servicebus.cloudapi.de".toList)
      from by decide]
    simp
  · refine ⟨"Invalid Service Bus endpoint: ".toList ++ host ++
      ". Supported formats: *.servicebus.windows.net, *.servicebus.usgovcloudapi.net, *.servicebus.chinacloudapi.cn, *".toList,
      [], ?_⟩
    rw [show (". Supported formats: *.servicebus.windows.net, *.servicebus.usgovcloudapi.net, *.servicebus.chinacloudapi.cn, *.servicebus.cloudapi.de").toList =
      ". Supported formats: *.servicebus.windows.net, *.servicebus.usgovcloudapi.net, *.servicebus.chinacloudapi.cn, *".toList ++
        (".servicebus.cloudapi.de".toList ++ ([] : List Char)) from by decide]
    simp

/-- Counterexample to C6 as stated: at the unsupported host `example.com`,
the domain-suffix derivation fails with an error naming only the host; that
error does not list the supported suffixes (shown for
`.servicebus.usgovcloudapi.net`), contradicting "the error message lists
all four supported suffixes" for the domain derivation. -/
theorem claim_C6_counterexample :
    get_endpoint_domain "https://example.com".toList =
      .error "Invalid Service Bus endpoint: example.com".toList ∧
    containsSeq ".servicebus.usgovcloudapi.net".toList
      "Invalid Service Bus endpoint: example.com".toList = false := by
  constructor
  · rfl
  · decide

/-- Witness for C6: the amended theorem applied at the concrete host
`example.com`. -/
theorem claim_C6_unsupported_host_errors_witness :
    get_namespace_from_endpoint "https://example.com".toList =
      .error ("Invalid Service Bus endpoint: ".toList ++ "example.com".toList ++
        ". Supported formats: *.servicebus.windows.net, *.servicebus.usgovcloudapi.net, *.servicebus.chinacloudapi.cn, *.servicebus.cloudapi.de".toList) ∧
    get_endpoint_domain "https://example.com".toList =
      .error ("Invalid Service Bus endpoint: ".toList ++ "example.com".toList) := by
  have h := claim_C6_unsupported_host_errors "example.com".toList (by decide)
    (by decide) (by decide) (by decide) (by decide) (by decide)
  rw [show "https://".toList ++ "example.com".toList =
    "https://example.com".toList from by decide] at h
  exact ⟨h.1, h.2.2⟩

/-! ### Lemmas for SAS token generation -/

theorem char_toNat_lt (c : Char) : c.toNat < 1114112 := by
  have := c.valid
  unfold UInt32.isValidChar Nat.isValidChar at this
  rcases this with h | ⟨h1, h2⟩ <;> simp [Char.toNat] <;> omega

theorem hexDigit_ne_amp (n : Nat) (h : n < 16) : hexDigit n ≠ '&' := by
  interval_cases n <;> decide

theorem utf8Bytes_lt (n : Nat) (hn : n < 1114112) : ∀ b ∈ utf8Bytes n, b < 256 := by
  intro b hb
  unfold utf8Bytes at hb
  split_ifs at hb with h1 h2 h3
  · simp at hb; omega
  · simp at hb; rcases hb with rfl | rfl <;> omega
  · simp at hb; rcases hb with rfl | rfl | rfl <;> omega
  · simp at hb; rcases hb with rfl | rfl | rfl | rfl <;> omega

theorem percentEncodeChar_ne_amp (c : Char) : ∀ d ∈ percentEncodeChar c, d ≠ '&' := by
  intro d hd
  unfold percentEncodeChar at hd
  split_ifs at hd with h
  · simp at hd
    subst hd
    intro e
    subst e
    revert h
    decide
  · simp only [List.mem_flatMap] at hd
    obtain ⟨b, hb, hdb⟩ := hd
    have hblt := utf8Bytes_lt _ (char_toNat_lt c) b hb
    unfold encByte at hdb
    simp at hdb
    rcases hdb with rfl | rfl | rfl
    · decide
    · exact hexDigit_ne_amp _ (by omega)
    · exact hexDigit_ne_amp _ (by omega)

theorem percentEncode_ne_amp (l : List Char) : ∀ d ∈ percentEncode l, d ≠ '&' := by
  intro d hd
  unfold percentEncode at hd
  simp only [List.mem_flatMap] at hd
  obtain ⟨c, _, hdc⟩ := hd
  exact percentEncodeChar_ne_amp c d hdc

theorem natChars_ne_amp (n : Nat) : ∀ d ∈ natChars n, d ≠ '&' :=
  fun d hd => isDigit_ne_of_not d '&' (natChars_isDigit n d hd) (by decide)

theorem no_amp_append (P X : List Char) (hP : ∀ d ∈ P, d ≠ '&')
    (hX : ∀ d ∈ X, d ≠ '&') : ∀ d ∈ P ++ X, d ≠ '&' := by
  intro d hd
  rcases List.mem_append.1 hd with hd | hd
  · exact hP d hd
  · exact hX d hd

theorem sasParse_token (A B C D : List Char)
    (hA : ∀ d ∈ A, d ≠ '&') (hB : ∀ d ∈ B, d ≠ '&')
    (hC : ∀ d ∈ C, d ≠ '&') (hD : ∀ d ∈ D, d ≠ '&') :
    sasParse ("SharedAccessSignature sr=".toList ++ A ++ "&sig=".toList ++ B ++
      "&se=".toList ++ C ++ "&skn=".toList ++ D) = some (A, B, C, D) := by
  have hsh : "SharedAccessSignature sr=".toList ++ A ++ "&sig=".toList ++ B ++
      "&se=".toList ++ C ++ "&skn=".toList ++ D =
      ("SharedAccessSignature sr=".toList ++ A) ++ '&' ::
        (("sig=".toList ++ B) ++ '&' :: (("se=".toList ++ C) ++ '&' ::
          ("skn=".toList ++ D))) := by
    rw [show "&sig=".toList = '&' :: "sig=".toList from by decide,
      show "&se=".toList = '&' :: "se=".toList from by decide,
      show "&skn=".toList = '&' :: "skn=".toList from by decide]
    simp
  rw [hsh]
  unfold sasParse
  simp only [splitOnChar_append '&' _ _
      (no_amp_append "SharedAccessSignature sr=".toList A (by decide) hA),
    splitOnChar_append '&' _ _
      (no_amp_append "sig=".toList B (by decide) hB),
    splitOnChar_append '&' _ _
      (no_amp_append "se=".toList C (by decide) hC),
    splitOnChar_noSep '&' _
      (no_amp_append "skn=".toList D (by decide) hD),
    stripPre_self_append]

/-- Claim C8: `generate_sas_token` produces exactly the text
`SharedAccessSignature sr=<enc(uri)>&sig=<enc(mac key signing)>&se=<expiry>
&skn=<enc(key_name)>`, where the signing input is
`enc(uri) ++ "\n" ++ expiry` and `expiry = now + validity_seconds` in UTC
epoch seconds (`mac key msg` abstracts `base64(HMAC-SHA256(key, msg))`);
recomputing the signature over the same signing string with the same key
reproduces the embedded signature (`sasTokenVerify`); and every management
request's `get_auth_header` generates such a token per-request over the
exact URI being hit with the fixed 3600-second (1-hour) validity. -/
theorem claim_C8_sas_token_format_and_verify :
    ∀ (mac : List Char → List Char → List Char) (now : Nat)
      (resource_uri key_name key : List Char) (v : Nat)
      (pc : ParsedConnectionString),
      generate_sas_token mac now resource_uri key_name key v =
        "SharedAccessSignature sr=".toList ++ percentEncode resource_uri ++
          "&sig=".toList ++
          percentEncode (mac key
            (percentEncode resource_uri ++ '\n' :: natChars (now + v))) ++
          "&se=".toList ++ natChars (now + v) ++
          "&skn=".toList ++ percentEncode key_name ∧
      sasParse (generate_sas_token mac now resource_uri key_name key v) =
        some (percentEncode resource_uri,
          percentEncode (mac key
            (percentEncode resource_uri ++ '\n' :: natChars (now + v))),
          natChars (now + v), percentEncode key_name) ∧
      sasTokenVerify mac key
        (generate_sas_token mac now resource_uri key_name key v) = true ∧
      get_auth_header mac now false (some pc) resource_uri =
        .ok (generate_sas_token mac now resource_uri pc.shared_access_key_name
          pc.shared_access_key 3600) := by
  intro mac now resource_uri key_name key v pc
  have hparse : sasParse (generate_sas_token mac now resource_uri key_name key v) =
      some (percentEncode resource_uri,
        percentEncode (mac key
          (percentEncode resource_uri ++ '\n' :: natChars (now + v))),
        natChars (now + v), percentEncode key_name) := by
    unfold generate_sas_token
    exact sasParse_token _ _ _ _ (percentEncode_ne_amp _) (percentEncode_ne_amp _)
      (natChars_ne_amp _) (percentEncode_ne_amp _)
  refine ⟨rfl, hparse, ?_, rfl⟩
  unfold sasTokenVerify
  rw [hparse]
  simp

/-- Claim C9: `test_connection` never propagates an error — it returns
`Ok(true)` exactly when the management queue listing succeeds and converts
every listing failure into `Ok(false)` rather than an `Err`. -/
theorem claim_C9_test_connection_never_errs :
    ∀ r : Except (List Char) (List QueueProperties),
      (∀ qs, r = .ok qs → test_connection r = .ok true) ∧
      (∀ e, r = .error e → test_connection r = .ok false) ∧
      ∃ b : Bool, test_connection r = .ok b := by
  intro r
  cases r with
  | ok qs =>
    refine ⟨fun _ _ => rfl, fun e he => ?_, ⟨true, rfl⟩⟩
    cases he
  | error e =>
    refine ⟨fun qs hq => ?_, fun _ _ => rfl, ⟨false, rfl⟩⟩
    cases hq

/-- Witness for C9: a failed listing becomes `Ok(false)`; a successful
listing becomes `Ok(true)`. -/
theorem claim_C9_test_connection_never_errs_witness :
    test_connection (.error "boom".toList) = .ok false ∧
    test_connection (.ok []) = .ok true :=
  ⟨(claim_C9_test_connection_never_errs _).2.1 _ rfl,
   (claim_C9_test_connection_never_errs _).1 _ rfl⟩

set_option maxRecDepth 8000 in
/-- Claim C1 (amended): for queue updates the immutable fields
(`enable_partitioning`, `requires_session`, `requires_duplicate_detection`)
always take the value read from the existing queue and are omitted
entirely — together with every runtime counter — from the XML body that is
PUT; the topic update body contains only the title, so no topic field is
ever sent either; but the in-memory topic merge prefers the caller's
`enable_partitioning`/`requires_duplicate_detection` (`.or`) instead of
echoing the existing values (see the counterexample).  In particular, for
an existing queue with partitioning `true` and a caller update with
partitioning `false`, the merge keeps `true` and the emitted update request
contains no partitioning element. -/
theorem claim_C1_update_immutable_fields :
    (∀ p ex : QueueProperties,
      (update_queue_merge p ex).enable_partitioning = ex.enable_partitioning ∧
      (update_queue_merge p ex).requires_session = ex.requires_session ∧
      (update_queue_merge p ex).requires_duplicate_detection =
        ex.requires_duplicate_detection ∧
      (update_queue_merge p ex).message_count = ex.message_count ∧
      (update_queue_merge p ex).active_message_count = ex.active_message_count ∧
      (update_queue_merge p ex).size_in_bytes = ex.size_in_bytes) ∧
    (∀ (name : List Char) (p : QueueProperties),
      queue_properties_to_xml name (some p) true =
        queue_properties_to_xml name
          (some { p with
                  enable_partitioning := none
                  requires_session := none
                  requires_duplicate_detection := none }) false) ∧
    (∀ (name : List Char) (p : QueueProperties) (ep rs rdd : Option Bool)
      (mc amc dlmc smc tmc tdlmc sib : Option Nat),
      queue_properties_to_xml name
        (some { p with
                enable_partitioning := ep
                requires_session := rs
                requires_duplicate_detection := rdd
                message_count := mc
                active_message_count := amc
                dead_letter_message_count := dlmc
                scheduled_message_count := smc
                transfer_message_count := tmc
                transfer_dead_letter_message_count := tdlmc
                size_in_bytes := sib })
        true =
      queue_properties_to_xml name (some p) true) ∧
    (∀ (name : List Char) (p : TopicProperties),
      topic_properties_to_xml name (some p) = topic_properties_to_xml name none) ∧
    ((update_queue_merge { name := "q".toList, enable_partitioning := some false }
        { name := "q".toList, enable_partitioning := some true }).enable_partitioning
        = some true ∧
      containsSeq "<EnablePartitioning>".toList
        (queue_properties_to_xml "q".toList
          (some (update_queue_merge
            { name := "q".toList, enable_partitioning := some false }
            { name := "q".toList, enable_partitioning := some true })) true)
        = false) :=
  ⟨fun _ _ => ⟨rfl, rfl, rfl, rfl, rfl, rfl⟩,
   fun _ _ => rfl, fun _ _ _ _ _ _ _ _ _ _ _ _ => rfl, fun _ _ => rfl,
   ⟨rfl, by decide⟩⟩

/-- Counterexample to C1 as stated: in `update_topic`, the merge for the
immutable `enable_partitioning` field takes the caller's value when
present (`properties.enable_partitioning.or existing.enable_partitioning`),
so with an existing topic having partitioning `some true` and a caller
update passing `some false`, the merged entity carries `some false` — it
does not "always take the value read from the existing entity". -/
theorem claim_C1_counterexample :
    (update_topic_merge
      { name := "t".toList, enable_partitioning := some false }
      { name := "t".toList, enable_partitioning := some true }).enable_partitioning
      = some false ∧
    (some false : Option Bool) ≠
      ({ name := "t".toList, enable_partitioning := some true } :
        TopicProperties).enable_partitioning := by
  exact ⟨rfl, by decide⟩

/-! ### Lemmas for the purge loop -/

theorem purgeLoop_cap (recv : Nat → Nat → RecvResult) (it consec count : Nat)
    (h : 100 < it + 1) : purgeLoop recv it consec count = .ok count := by
  rw [purgeLoop.eq_def, dif_pos (by simpa [purge_max_iterations] using h)]

theorem purgeLoop_step (recv : Nat → Nat → RecvResult) (it consec count : Nat)
    (h : ¬ 100 < it + 1) :
    purgeLoop recv it consec count =
      (match recv (it + 1) purge_batch_size with
      | .fail e => .error ("Failed to receive messages: ".toList ++ e)
      | .timeout =>
        if purge_max_consecutive_empty ≤ consec + 1 then .ok count
        else purgeLoop recv (it + 1) (consec + 1) count
      | .batch n =>
        if n = 0 then
          if purge_max_consecutive_empty ≤ consec + 1 then .ok count
          else purgeLoop recv (it + 1) (consec + 1) count
        else purgeLoop recv (it + 1) 0 (count + n)) := by
  conv_lhs => rw [purgeLoop.eq_def]
  rw [dif_neg (by simpa [purge_max_iterations] using h)]

theorem purgeLoop_env_agree (k : Nat) :
    ∀ (it consec count : Nat) (recv recv' : Nat → Nat → RecvResult),
      (∀ i, i ≤ 100 → recv i purge_batch_size = recv' i purge_batch_size) →
      100 - it = k →
      purgeLoop recv it consec count = purgeLoop recv' it consec count := by
  induction k with
  | zero =>
    intro it consec count recv recv' _ hk
    rw [purgeLoop_cap _ _ _ _ (by omega), purgeLoop_cap _ _ _ _ (by omega)]
  | succ k ih =>
    intro it consec count recv recv' hag hk
    have hit : ¬ 100 < it + 1 := by omega
    rw [purgeLoop_step _ _ _ _ hit, purgeLoop_step _ _ _ _ hit,
      hag (it + 1) (by omega)]
    cases recv' (it + 1) purge_batch_size with
    | fail e => rfl
    | timeout =>
      by_cases hc : purge_max_consecutive_empty ≤ consec + 1
      · rw [if_pos hc, if_pos hc]
      · rw [if_neg hc, if_neg hc]
        exact ih (it + 1) (consec + 1) count recv recv' hag (by omega)
    | batch n =>
      simp only []
      by_cases hn : n = 0
      · rw [if_pos hn, if_pos hn]
        by_cases hc : purge_max_consecutive_empty ≤ consec + 1
        · rw [if_pos hc, if_pos hc]
        · rw [if_neg hc, if_neg hc]
          exact ih (it + 1) (consec + 1) count recv recv' hag (by omega)
      · rw [if_neg hn, if_neg hn]
        exact ih (it + 1) 0 (count + n) recv recv' hag (by omega)

theorem purgeLoop_const_batch (k : Nat) :
    ∀ (it consec count : Nat), 100 - it = k →
      purgeLoop (fun _ _ => RecvResult.batch 100) it consec count =
        .ok (count + k * 100) := by
  induction k with
  | zero =>
    intro it consec count hk
    rw [purgeLoop_cap _ _ _ _ (by omega)]
    simp
  | succ k ih =>
    intro it consec count hk
    rw [purgeLoop_step _ _ _ _ (by omega)]
    simp only []
    rw [if_neg (by omega : ¬ (100 : Nat) = 0)]
    rw [ih (it + 1) 0 (count + 100) (by omega)]
    exact congrArg Except.ok (by ring)

theorem purgeLoop_three_empty (recv : Nat → Nat → RecvResult) (it count : Nat)
    (h1 : recv (it + 1) purge_batch_size = .batch 0 ∨
      recv (it + 1) purge_batch_size = .timeout)
    (h2 : recv (it + 2) purge_batch_size = .batch 0 ∨
      recv (it + 2) purge_batch_size = .timeout)
    (h3 : recv (it + 3) purge_batch_size = .batch 0 ∨
      recv (it + 3) purge_batch_size = .timeout) :
    purgeLoop recv it 0 count = .ok count := by
  by_cases hc1 : 100 < it + 1
  · exact purgeLoop_cap _ _ _ _ hc1
  have s1 : purgeLoop recv it 0 count = purgeLoop recv (it + 1) 1 count := by
    rw [purgeLoop_step _ _ _ _ hc1]
    rcases h1 with h | h <;> rw [h]
    · simp only []
      rw [if_pos trivial, if_neg (by simp [purge_max_consecutive_empty])]
    · rw [if_neg (by simp [purge_max_consecutive_empty])]
  by_cases hc2 : 100 < it + 2
  · rw [s1, purgeLoop_cap _ _ _ _ (by omega)]
  have s2 : purgeLoop recv (it + 1) 1 count = purgeLoop recv (it + 2) 2 count := by
    rw [purgeLoop_step _ _ _ _ (by omega)]
    rw [show it + 1 + 1 = it + 2 from by omega]
    rcases h2 with h | h <;> rw [h]
    · simp only []
      rw [if_pos trivial, if_neg (by simp [purge_max_consecutive_empty])]
    · rw [if_neg (by simp [purge_max_consecutive_empty])]
  by_cases hc3 : 100 < it + 3
  · rw [s1, s2, purgeLoop_cap _ _ _ _ (by omega)]
  have s3 : purgeLoop recv (it + 2) 2 count = .ok count := by
    rw [purgeLoop_step _ _ _ _ (by omega)]
    rw [show it + 2 + 1 = it + 3 from by omega]
    rcases h3 with h | h <;> rw [h]
    · simp only []
      rw [if_pos trivial, if_pos (by simp [purge_max_consecutive_empty])]
    · rw [if_pos (by simp [purge_max_consecutive_empty])]
  rw [s1, s2, s3]

/-- Claim C7: `purge_queue` always terminates with a finite removed-message
count: the loop requests batches of `purge_batch_size = 100`, each receive
bounded by the `purge_receive_timeout_secs = 5` second timeout; it stops
after `purge_max_consecutive_empty = 3` consecutive empty or timed-out
receives; its behaviour depends only on the first
`purge_max_iterations = 100` receive attempts (the hard cap), and against a
server that always returns a full batch it stops at the cap with the finite
count 10000; an initial peek returning zero messages short-circuits with
count 0, while a failed peek runs the same loop as a non-empty peek. -/
theorem claim_C7_purge_terminates :
    (purge_batch_size = 100 ∧ purge_max_iterations = 100 ∧
      purge_max_consecutive_empty = 3 ∧ purge_receive_timeout_secs = 5) ∧
    (∀ recv, purge_queue_model (.peeked 0) recv = .ok 0) ∧
    (∀ recv, purge_queue_model .peekFailed recv = purgeLoop recv 0 0 0 ∧
      ∀ n, n ≠ 0 → purge_queue_model (.peeked n) recv = purgeLoop recv 0 0 0) ∧
    (∀ peek recv recv',
      (∀ i, i ≤ 100 → recv i purge_batch_size = recv' i purge_batch_size) →
      purge_queue_model peek recv = purge_queue_model peek recv') ∧
    purge_queue_model (.peeked 1) (fun _ _ => RecvResult.batch 100) = .ok 10000 ∧
    (∀ recv it count,
      (recv (it + 1) purge_batch_size = .batch 0 ∨
        recv (it + 1) purge_batch_size = .timeout) →
      (recv (it + 2) purge_batch_size = .batch 0 ∨
        recv (it + 2) purge_batch_size = .timeout) →
      (recv (it + 3) purge_batch_size = .batch 0 ∨
        recv (it + 3) purge_batch_size = .timeout) →
      purgeLoop recv it 0 count = .ok count) := by
  refine ⟨⟨rfl, rfl, rfl, rfl⟩, fun recv => rfl, ?_, ?_, ?_,
    purgeLoop_three_empty⟩
  · intro recv
    refine ⟨rfl, fun n hn => ?_⟩
    unfold purge_queue_model
    simp only []
    rw [if_neg hn]
  · intro peek recv recv' hag
    cases peek with
    | peekFailed => exact purgeLoop_env_agree 100 0 0 0 recv recv' hag rfl
    | peeked n =>
      unfold purge_queue_model
      simp only []
      by_cases hn : n = 0
      · rw [if_pos hn, if_pos hn]
      · rw [if_neg hn, if_neg hn]
        exact purgeLoop_env_agree 100 0 0 0 recv recv' hag rfl
  · unfold purge_queue_model
    simp only []
    rw [if_neg (by omega : ¬ (1 : Nat) = 0)]
    have := purgeLoop_const_batch 100 0 0 0 rfl
    simpa using this

/-- Witness for C7: three consecutive empty receives from iteration 0 stop
the loop with count 0, and the loop result is unchanged when the receiver
is modified beyond the 100-iteration cap. -/
theorem claim_C7_purge_terminates_witness :
    purgeLoop (fun _ _ => RecvResult.batch 0) 0 0 0 = .ok 0 ∧
    purge_queue_model (.peeked 5) (fun _ _ => RecvResult.timeout) =
      purge_queue_model (.peeked 5)
        (fun i _ => if i ≤ 100 then RecvResult.timeout else RecvResult.batch 7) := by
  constructor
  · exact claim_C7_purge_terminates.2.2.2.2.2 (fun _ _ => RecvResult.batch 0) 0 0
      (Or.inl rfl) (Or.inl rfl) (Or.inl rfl)
  · exact claim_C7_purge_terminates.2.2.2.1 (.peeked 5) _ _
      (fun i hi => by simp [hi])

/-! ### Lemmas for pagination -/

theorem qNormalizeNext_eq (h : List Char) : qNormalizeNext h = h := by
  unfold qNormalizeNext
  cases hs : stripPre "http".toList h with
  | none => rfl
  | some r => exact (stripPre_eq_some _ _ _ hs).symm

/-- Claim C2 (amended): in `list_queues`, the loop terminates after the
current page when the page is empty, when there is no next link, or when
the next link equals the current URL after `%24`→`$` normalization — in
particular a self-referential feed finishes after one page.  But
`list_topics` and `list_subscriptions` (which share the same pagination
code) have neither the empty-page break nor the self-link guard: they stop
only when no usable next link is present, and a self-referential next link
makes the loop run forever (the step function is a fixpoint, so no amount
of fuel finishes). -/
theorem claim_C2_pagination_termination :
    (∀ (url : List Char) (p : QueueFeedPage) (h : List Char), p.next = some h →
      replDollar (qNormalizeNext h) = replDollar url →
      list_queues_step url p = none) ∧
    (∀ (url : List Char) (p : QueueFeedPage), p.entries = 0 →
      list_queues_step url p = none) ∧
    (∀ (url : List Char) (p : QueueFeedPage), p.next = none →
      list_queues_step url p = none) ∧
    (∀ (server : List Char → QueueFeedPage) (url : List Char) (fuel : Nat),
      1 ≤ fuel → (server url).next = some url →
      list_queues_pages server fuel url = some 1) ∧
    (∀ (base url : List Char) (links : List FeedLink),
      findNextLink links = none →
      list_topics_step base url links = none ∧
      list_subscriptions_step base url links = none) ∧
    (∀ (base url : List Char) (links : List FeedLink),
      list_subscriptions_step base url links = list_topics_step base url links) ∧
    (∀ (base : List Char) (server : List Char → List FeedLink) (url : List Char),
      list_topics_step base url (server url) = some url →
      ∀ fuel, list_topics_pages base server fuel url = none) := by
  refine ⟨?_, ?_, ?_, ?_, ?_, ?_, ?_⟩
  · intro url p h hnext hrepl
    unfold list_queues_step
    by_cases he : p.entries = 0
    · rw [if_pos he]
    · rw [if_neg he, hnext]
      simp only []
      rw [if_pos hrepl]
  · intro url p he
    unfold list_queues_step
    rw [if_pos he]
  · intro url p hnone
    unfold list_queues_step
    by_cases he : p.entries = 0
    · rw [if_pos he]
    · rw [if_neg he, hnone]
  · intro server url fuel hfuel hself
    obtain ⟨f, rfl⟩ : ∃ f, fuel = f + 1 := ⟨fuel - 1, by omega⟩
    have hstep : list_queues_step url (server url) = none := by
      unfold list_queues_step
      by_cases he : (server url).entries = 0
      · rw [if_pos he]
      · rw [if_neg he, hself]
        simp only []
        rw [if_pos (by rw [qNormalizeNext_eq])]
    unfold list_queues_pages
    rw [hstep]
  · intro base url links hfind
    constructor
    · unfold list_topics_step
      rw [hfind]
    · unfold list_subscriptions_step
      rw [hfind]
  · intro base url links
    rfl
  · intro base server url hself fuel
    induction fuel with
    | zero => rfl
    | succ f ih =>
      unfold list_topics_pages
      rw [hself]
      simp only []
      rw [ih]
      rfl

/-- Counterexample to C2 as stated: a simulated `list_topics` feed whose
next link equals the current request URL does not terminate after that page
— with fuel for 5 pages the loop is still running — while the identically
self-referential `list_queues` feed finishes after one page thanks to the
normalized-URL guard. -/
theorem claim_C2_counterexample :
    list_topics_pages "https://ns.servicebus.windows.net".toList
      (fun _ => [⟨some "next".toList,
        some "https://ns.servicebus.windows.net/$Resources/Topics?api-version=2021-05".toList⟩])
      5 "https://ns.servicebus.windows.net/$Resources/Topics?api-version=2021-05".toList
      = none ∧
    list_queues_pages
      (fun u => { entries := 1, next := some u }) 5
      "https://ns.servicebus.windows.net/$Resources/Queues?api-version=2021-05".toList
      = some 1 := by
  constructor
  · decide
  · decide

/-- Witness for C2: the queue-loop guard applied to a concrete
self-referential feed, and the topic-loop divergence applied to a concrete
self-referential feed. -/
theorem claim_C2_pagination_termination_witness :
    list_queues_pages (fun u => { entries := 3, next := some u }) 7
      "https://x.servicebus.windows.net/$Resources/Queues?api-version=2021-05".toList
      = some 1 ∧
    list_topics_pages "https://x.servicebus.windows.net".toList
      (fun _ => [⟨some "next".toList,
        some "https://x.servicebus.windows.net/$Resources/Topics?api-version=2021-05".toList⟩])
      3 "https://x.servicebus.windows.net/$Resources/Topics?api-version=2021-05".toList
      = none := by
  constructor
  · exact claim_C2_pagination_termination.2.2.2.1 _ _ 7 (by omega) rfl
  · exact claim_C2_pagination_termination.2.2.2.2.2.2 _ _ _ (by decide) 3
